import Mathlib

/-!
Verification development for the GDPC world-state consistency layer
(`src/gdpc/editor.py`, `src/gdpc/worldLoader.py`).

The Python sources are shallowly embedded below.  Modules of the repository
that are not part of the provided sources (`gdpc/block.py`, `gdpc/utility.py`,
`gdpc/interface.py`, `gdpc/world_slice.py`, `gdpc/bitarray.py`) are modelled
from the specification where the editor code depends on them; every such
definition carries a doc comment saying so.  Machine integers are modelled as
`Int`/`Nat` with the Python semantics of `>>`, `%` and numpy array indexing
made explicit.
-/

namespace GDPC

/-- A block position `(x, y, z)` in global coordinates (Python `ivec3`). -/
abbrev Pos := Int × Int × Int

/-- An XZ column coordinate (Python `ivec2`). -/
abbrev XZ := Int × Int

/-- `vector_tools.dropY`: drops the Y component of a position. -/
def dropY (p : Pos) : XZ := (p.1, p.2.2)

/-- Modelled from the spec: a Voxel (`gdpc.block.Block`, not under `src/`) is
an identifier string plus optional state/data which the claims never inspect;
the weighted multi-identifier form has already been collapsed to one concrete
identifier, and an empty identifier means "no placement". -/
structure Block where
  id : String
deriving DecidableEq

/-- Modelled from the spec: `Block.chooseId` resolves the weighted
multi-identifier form to a concrete identifier; on the single-identifier
form embedded here it is the identity. -/
def Block.chooseId (b : Block) : Block := b

/-- An XZ rectangle with an offset and a size (`vector_tools.Rect`). -/
structure Rect where
  ox : Int
  oz : Int
  sx : Int
  sz : Int
deriving DecidableEq

/-- `Rect.contains`: membership test of an XZ coordinate in the rectangle. -/
def Rect.containsB (r : Rect) (p : XZ) : Bool :=
  decide (r.ox ≤ p.1) && decide (p.1 < r.ox + r.sx) &&
  decide (r.oz ≤ p.2) && decide (p.2 < r.oz + r.sz)

/-- Modelled from the spec: the editor-side World Snapshot
(`gdpc.world_slice.WorldSlice`, not under `src/`): an XZ rectangle plus the
fully resolved block for every position covered by the snapshot
(`Block.fromBlockCompound(worldSlice.getBlockCompoundAt(position))` in
`Editor.getBlockGlobal`). -/
structure WorldSliceE where
  rect : Rect
  data : Pos → Block

/-- ASCII fragment of Python `str.isnumeric` used for server result tokens:
a token is numeric iff it is non-empty and all its characters are decimal
digits.  (Full `str.isnumeric` also accepts non-ASCII Unicode numerics,
which are outside the token alphabet of the HTTP interface.) -/
def pyIsnumeric (s : String) : Bool :=
  !s.toList.isEmpty && s.toList.all Char.isDigit

/-- Decimal digit value of a character, if it is a digit. -/
def digitVal (c : Char) : Option Nat :=
  if c.isDigit then some (c.toNat - 48) else none

/-- One step of the decimal parser: accumulates a digit, failing forever
once a non-digit was seen. -/
def parseStep (acc : Option Nat) (c : Char) : Option Nat :=
  match acc with
  | none => none
  | some n =>
    match digitVal c with
    | none => none
    | some d => some (n * 10 + d)

/-- Parser for the syntax of a non-negative decimal integer: succeeds exactly
on non-empty strings of decimal digits. -/
def parseDec (s : String) : Option Nat :=
  if s.toList.isEmpty then none
  else s.toList.foldl parseStep (some 0)

/-- Modelled from the spec: the remote store behind `gdpc.interface.Interface`
(not under `src/`).  `blocks` is the authoritative block at each position;
`placeResult` is the oracle giving the result token the server returns for
placing a given block at a given position (with the given doBlockUpdates
flag); `commandResult` gives the result tokens of a command string;
`fetchSlice` is the bulk snapshot fetch.  Per the spec's result-token
contract, a placement is applied iff its token is a success token. -/
structure RemoteWorld where
  blocks : Pos → Block
  placeResult : Pos → Block → Bool → String
  commandResult : String → List String
  fetchSlice : Rect → WorldSliceE

/-- `Interface.placeBlocks`: sends a batch of placements, returning one
result token per item (in input order) and the updated remote store; an item
is applied iff its token is a success token (spec §7(a): a failed item's
effect is considered not applied). -/
def placeBlocksGo (rw : RemoteWorld) (items : List (Pos × Block)) (dbu : Bool) :
    List String × RemoteWorld :=
  match items with
  | [] => ([], rw)
  | (p, b) :: rest =>
    let tok := rw.placeResult p b dbu
    let rw' :=
      if pyIsnumeric tok then
        { rw with blocks := fun r => if r = p then b else rw.blocks r }
      else rw
    let res := placeBlocksGo rw' rest dbu
    (tok :: res.1, res.2)

/-- The warnings produced by the `for line in response` loops of
`Editor.sendBufferedBlocks`: each non-numeric token yields one warning line
and processing continues with the remaining tokens; no token raises. -/
def responseWarnings : List String → List String
  | [] => []
  | line :: rest =>
    if pyIsnumeric line then responseWarnings rest
    else ("Warning: Server returned error: " ++ line) :: responseWarnings rest

/-- The read sources of `Editor.getBlockGlobal`, in consultation order. -/
inductive ReadSource
  | cacheHit
  | bufferHit
  | sliceHit
  | network
deriving DecidableEq

/-- The outcome of `Editor._placeSingleBlockGlobal`. -/
inductive PlaceOutcome
  | skippedReplace
  | skippedNoId
  | skippedCached
  | failedDirect
  | placedDirect
  | placedBuffered
deriving DecidableEq

/-- Whether an outcome corresponds to a placement actually staged or sent. -/
def PlaceOutcome.isPlacement : PlaceOutcome → Bool
  | .placedDirect => true
  | .placedBuffered => true
  | _ => false

/-- Lookup in the Lookup Cache (first entry with the given key; keys are
unique by construction). -/
def cacheFind : List (Pos × Block) → Pos → Option Block
  | [], _ => none
  | e :: rest, p => if e.1 = p then some e.2 else cacheFind rest p

/-- Modelled from the spec: a successful lookup in `OrderedByLookupDict`
(`gdpc/utility.py`, not under `src/`) promotes the entry's recency; entries
are kept in recency order with the most recently used last. -/
def cachePromote (cache : List (Pos × Block)) (p : Pos) (b : Block) :
    List (Pos × Block) :=
  cache.filter (fun e => e.1 ≠ p) ++ [(p, b)]

/-- Modelled from the spec: `OrderedByLookupDict` insertion
(`gdpc/utility.py`, not under `src/`): inserts/overwrites the entry as most
recently used, then evicts least-recently-used entries (list front) until the
size is within `maxSize`. -/
def cachePut (cache : List (Pos × Block)) (maxSize : Nat) (p : Pos) (b : Block) :
    List (Pos × Block) :=
  let c := cache.filter (fun e => e.1 ≠ p) ++ [(p, b)]
  c.drop (c.length - maxSize)

/-- Lookup in the Write Buffer (`self._buffer.get(position, None)`).
The third component of an entry is ghost bookkeeping: the effective
`doBlockUpdates` flag under which the entry was staged (not stored by the
Python dict; used only to state the buffer-uniformity invariant). -/
def bufferFind : List (Pos × Block × Bool) → Pos → Option Block
  | [], _ => none
  | e :: rest, p => if e.1 = p then some e.2.1 else bufferFind rest p

/-- `self._buffer[position] = block`: Python dict assignment keeps the
insertion position of an existing key and appends a new key at the end. -/
def bufferInsert (buffer : List (Pos × Block × Bool)) (p : Pos) (b : Block)
    (g : Bool) : List (Pos × Block × Bool) :=
  match buffer with
  | [] => [(p, b, g)]
  | (q, c, h) :: rest =>
    if q = p then (p, b, g) :: rest
    else (q, c, h) :: bufferInsert rest p b g

/-- The state of an `Editor` (the fields of `Editor.__init__` that the claims
concern, plus the remote store and two ghost fields: `flushCount` counts the
calls to `sendBufferedBlocks` and `warnings` accumulates warning lines).
The multithreading fields are not modelled: every operation below is the
synchronous (default, single-threaded) code path.  The Decay Mask
`_worldSliceDecay` is indexed in the code by
`position - addY(rect.offset, BUILD_Y_MIN)`, a bijection on positions; it is
embedded as a predicate on global positions. -/
structure EditorState where
  buffering : Bool
  bufferLimit : Nat
  buffer : List (Pos × Block × Bool)
  commandBuffer : List String
  caching : Bool
  cache : List (Pos × Block)
  cacheLimit : Nat
  doBlockUpdates : Bool
  bufferDoBlockUpdates : Bool
  worldSlice : Option WorldSliceE
  decay : Pos → Bool
  remote : RemoteWorld
  flushCount : Nat
  warnings : List String

/-- Result of `Editor.getBlockGlobal`: the block, the source that answered
(ghost), and the state after the read. -/
structure ReadResult where
  block : Block
  source : ReadSource
  state : EditorState

/-- The World Snapshot branch guard of `Editor.getBlockGlobal`: the snapshot
may answer only if one is cached, its rectangle contains the position's XZ,
and the Decay Mask at the position is false. -/
def sliceUsable (S : EditorState) (pos : Pos) : Option Block :=
  match S.worldSlice with
  | none => none
  | some ws =>
    if ws.rect.containsB (dropY pos) && !(S.decay pos) then some (ws.data pos)
    else none

/-- `Editor.getBlockGlobal`: Lookup Cache (if caching) → Write Buffer (if
buffering) → World Snapshot (if usable) → network fetch; on a cache miss
resolved from the snapshot or the network, the value is stored into the
Lookup Cache when caching is enabled. -/
def getBlockGlobal (S : EditorState) (pos : Pos) : ReadResult :=
  match (if S.caching then cacheFind S.cache pos else none) with
  | some b => ⟨b, .cacheHit, { S with cache := cachePromote S.cache pos b }⟩
  | none =>
    match (if S.buffering then bufferFind S.buffer pos else none) with
    | some b => ⟨b, .bufferHit, S⟩
    | none =>
      let r :=
        match sliceUsable S pos with
        | some b => (b, ReadSource.sliceHit)
        | none => (S.remote.blocks pos, ReadSource.network)
      if S.caching then
        ⟨r.1, r.2, { S with cache := cachePut S.cache S.cacheLimit pos r.1 }⟩
      else ⟨r.1, r.2, S⟩

/-- `Editor.sendBufferedBlocks` (synchronous path): sends the block buffer
(one batch, uniform `_bufferDoBlockUpdates` flag) and then the command
buffer, clearing both and turning non-numeric result tokens into warnings.
The ghost `flushCount` is incremented once per call. -/
def sendBufferedBlocks (S : EditorState) : EditorState :=
  let S1 :=
    if S.buffer.isEmpty then S
    else
      let res := placeBlocksGo S.remote (S.buffer.map (fun e => (e.1, e.2.1)))
        S.bufferDoBlockUpdates
      { S with remote := res.2, buffer := [],
               warnings := S.warnings ++ responseWarnings res.1 }
  let S2 :=
    if S1.commandBuffer.isEmpty then S1
    else
      let resp := S1.remote.commandResult
        (String.intercalate "\n" S1.commandBuffer)
      { S1 with commandBuffer := [],
                warnings := S1.warnings ++ responseWarnings resp }
  { S2 with flushCount := S2.flushCount + 1 }

/-- `Editor._placeSingleBlockGlobalDirect`: sends one placement; success iff
the single result token is numeric, otherwise a warning is recorded and
`False` is returned (no exception). -/
def placeSingleBlockGlobalDirect (S : EditorState) (pos : Pos) (b : Block)
    (dbu : Bool) : Bool × EditorState :=
  let res := placeBlocksGo S.remote [(pos, b)] dbu
  let S' := { S with remote := res.2 }
  if pyIsnumeric (res.1.headD "") then (true, S')
  else
    (false, { S' with warnings :=
        S'.warnings ++ ["Warning: Server returned error upon placing block"] })

/-- `Editor._placeSingleBlockGlobalBuffered` with the effective
`doBlockUpdates` flag `dbu` (the `None` default has already been resolved to
`self.doBlockUpdates`): flushes first if the flag differs from the buffer's
flag (updating the flag), else flushes if the buffer has reached the limit;
then stages the entry.  Always succeeds. -/
def placeSingleBlockGlobalBuffered (S : EditorState) (pos : Pos) (b : Block)
    (dbu : Bool) : EditorState :=
  let S1 :=
    if dbu ≠ S.bufferDoBlockUpdates then
      let Sf := sendBufferedBlocks S
      { Sf with bufferDoBlockUpdates := dbu }
    else if S.bufferLimit ≤ S.buffer.length then sendBufferedBlocks S
    else S
  { S1 with buffer := bufferInsert S1.buffer pos b dbu }

/-- Substring containment on identifiers, for the Python expression
`block.id in self.getBlockGlobal(position)` (the coarse substring
heuristic of `_placeSingleBlockGlobal`). -/
def strContainsSubstr (hay sub : String) : Bool :=
  (List.range (hay.toList.length + 1)).any
    (fun i => sub.toList.isPrefixOf (hay.toList.drop i))

/-- Result of `Editor._placeSingleBlockGlobal`: reported success, the path
taken (ghost), and the resulting state. -/
structure PlaceResult where
  success : Bool
  outcome : PlaceOutcome
  state : EditorState

/-- The Decay Mask update of `_placeSingleBlockGlobal` (lines 355-356): set
the mask cell of the written position when a cached snapshot's rectangle
covers its XZ column. -/
def decayAfterPlace (S1 : EditorState) (pos : Pos) : EditorState :=
  match S1.worldSlice with
  | some ws =>
    if ws.rect.containsB (dropY pos) then
      { S1 with decay := fun r => if r = pos then true else S1.decay r }
    else S1
  | none => S1

/-- The success tail of `_placeSingleBlockGlobal` (lines 352-357): store the
placed block into the Lookup Cache when caching is enabled, then update the
Decay Mask. -/
def placeFinish (S : EditorState) (pos : Pos) (b : Block) : EditorState :=
  decayAfterPlace
    (if S.caching then
      { S with cache := cachePut S.cache S.cacheLimit pos b }
     else S) pos

/-- The tail of `_placeSingleBlockGlobal` after all skip checks: stages the
block when buffering is enabled (always succeeding), otherwise sends it
directly; a failed direct send returns `False` at once, a success runs the
`placeFinish` tail. -/
def placeCore (S : EditorState) (pos : Pos) (b : Block) (dbu : Option Bool) :
    PlaceResult :=
  if S.buffering then
    ⟨true, .placedBuffered,
      placeFinish
        (placeSingleBlockGlobalBuffered S pos b (dbu.getD S.doBlockUpdates))
        pos b⟩
  else
    if (placeSingleBlockGlobalDirect S pos b (dbu.getD S.doBlockUpdates)).1 then
      ⟨true, .placedDirect,
        placeFinish
          (placeSingleBlockGlobalDirect S pos b (dbu.getD S.doBlockUpdates)).2
          pos b⟩
    else
      ⟨false, .failedDirect,
        (placeSingleBlockGlobalDirect S pos b (dbu.getD S.doBlockUpdates)).2⟩

/-- The part of `_placeSingleBlockGlobal` after the replace-filter check:
resolves the block's identifier (empty id means "no placement", reported as
success), applies the substring skip heuristic when caching is enabled (the
read it performs updates the state), then runs `placeCore`. -/
def placeAfterReplace (S : EditorState) (pos : Pos) (block : Block)
    (dbu : Option Bool) : PlaceResult :=
  if block.chooseId.id = "" then ⟨true, .skippedNoId, S⟩
  else if S.caching then
    if strContainsSubstr (getBlockGlobal S pos).block.id block.chooseId.id then
      ⟨true, .skippedCached, (getBlockGlobal S pos).state⟩
    else placeCore (getBlockGlobal S pos).state pos block.chooseId dbu
  else placeCore S pos block.chooseId dbu

/-- Modelled from the spec: the replace-filter match
(`self.getBlockGlobal(position) not in replace`, with `Block` equality
against the filter strings coming from `gdpc/block.py`, not under `src/`):
the current voxel matches the filter iff its identifier is one of the
filter's identifiers. -/
def matchesReplace (b : Block) (lst : List String) : Bool :=
  lst.contains b.id

/-- `Editor._placeSingleBlockGlobal`: the single-position write operation.
If a replace filter is given, the current block is read first and a
non-matching current block aborts the write, reported as success. -/
def placeSingleBlockGlobal (S : EditorState) (pos : Pos) (block : Block)
    (replace : Option (List String)) (dbu : Option Bool) : PlaceResult :=
  match replace with
  | some lst =>
    if !(matchesReplace (getBlockGlobal S pos).block lst) then
      ⟨true, .skippedReplace, (getBlockGlobal S pos).state⟩
    else placeAfterReplace (getBlockGlobal S pos).state pos block dbu
  | none => placeAfterReplace S pos block dbu

/-- `Editor.loadWorldSlice` with an explicit rectangle (the `rect=None`
build-area default is not exercised by the claims): fetches a brand-new
snapshot; if `cache` is true it replaces the cached snapshot and resets the
Decay Mask to all-false over the new snapshot's volume. -/
def loadWorldSlice (S : EditorState) (rect : Rect) (cache : Bool) :
    EditorState × WorldSliceE :=
  let ws := S.remote.fetchSlice rect
  if cache then
    ({ S with worldSlice := some ws, decay := fun _ => false }, ws)
  else (S, ws)

/-- `Editor.updateWorldSlice`: raises (`none`) when no snapshot is cached;
otherwise calls `loadWorldSlice(self._worldSlice.rect)` — with the `cache`
parameter left at its default `False`, exactly as in the code. -/
def updateWorldSlice (S : EditorState) : Option (EditorState × WorldSliceE) :=
  match S.worldSlice with
  | none => none
  | some ws => some (loadWorldSlice S ws.rect false)

/-!  Embedding of `src/gdpc/worldLoader.py` (the older `WorldSlice`).  -/

/-- A palette entry: an NBT compound holding at least the block's
namespaced `Name`; further NBT fields are never inspected by the claims. -/
structure PaletteEntry where
  name : String
deriving DecidableEq

/-- Modelled from the spec: `BitArray(w, n, words).getAt i`
(`gdpc/bitarray.py`, not under `src/`): fixed width `w`, non-spanning
packing into 64-bit words low-bit-first, `floor(64 / w)` entries per word,
`value = (word[i / epw] >> ((i % epw) * w)) & ((1 << w) - 1)`.  Words are
the unsigned 64-bit patterns of the NBT long array. -/
def bitArrayGetAt (w : Nat) (words : List Nat) (i : Nat) : Nat :=
  let epw := 64 / w
  (words.getD (i / epw) 0 >>> ((i % epw) * w)) % 2 ^ w

/-- Modelled from the spec: a `BitArray` built with `data = None` (a section
with a palette but no packed data) reads as all zeros. -/
def bitArrayGetAtOpt (w : Nat) (data : Option (List Nat)) (i : Nat) : Nat :=
  match data with
  | none => 0
  | some ws => bitArrayGetAt w ws i

/-- A raw chunk section as read from the NBT payload: its `Y` tag, its
`block_states` compound (palette and optional packed data; `none` stands
for an absent or empty `block_states` compound) and its `biomes` compound. -/
structure RawSection where
  y : Int
  blockStates : Option (List PaletteEntry × Option (List Nat))
  biomes : List PaletteEntry × Option (List Nat)

/-- A raw chunk of the fetched region payload: per-heightmap-name packed
9-bit long arrays, and the chunk's sections. -/
structure RawChunk where
  heightmapWords : String → List Nat
  sections : List RawSection

/-- Bit width for a block palette of size `p`:
`max(4, ceil(log2(p)))` (`worldLoader.py` line 113; `Nat.clog 2` is the
ceiling base-2 logarithm, exact where Python's float `ceil(log2(p))` is). -/
def blockStatesBits (p : Nat) : Nat := max 4 (Nat.clog 2 p)

/-- Bit width for a biome palette of size `p`: `max(1, ceil(log2(p)))`
(`worldLoader.py` line 120). -/
def biomesBits (p : Nat) : Nat := max 1 (Nat.clog 2 p)

/-- `CachedSection` of `worldLoader.py`: chunk-grid coordinates, the block
palette with its `BitArray` (width and raw words), and the biome palette
with its `BitArray`. -/
structure CachedSection where
  x : Int
  y : Int
  z : Int
  blockPalette : List PaletteEntry
  blockBits : Nat
  blockData : Option (List Nat)
  biomesPalette : List PaletteEntry
  biomesBits : Nat
  biomesData : Option (List Nat)

/-- The section loop of `WorldSlice.__init__` for one chunk at chunk-grid
position `(x, z)`: a section with no `block_states` (or an empty one) is
skipped; the others get their palettes and bit arrays cached. -/
def buildChunkSections (x z : Int) (c : RawChunk) : List CachedSection :=
  c.sections.filterMap (fun s =>
    match s.blockStates with
    | none => none
    | some pd =>
      some { x := x, y := s.y, z := z,
             blockPalette := pd.1,
             blockBits := blockStatesBits pd.1.length,
             blockData := pd.2,
             biomesPalette := s.biomes.1,
             biomesBits := biomesBits s.biomes.1.length,
             biomesData := s.biomes.2 })

/-- The chunk rectangle of `WorldSlice.__init__`: offset and size of the
chunk grid covering the requested rectangle (`x >> 4` is floor division). -/
structure ChunkRect where
  ox : Int
  oz : Int
  w : Int
  d : Int
deriving DecidableEq

/-- `self.chunkRect` computed from `x1, z1, x2, z2` (x2 and z2 exclusive). -/
def chunkRectOf (x1 z1 x2 z2 : Int) : ChunkRect :=
  { ox := Int.fdiv x1 16,
    oz := Int.fdiv z1 16,
    w := Int.fdiv (x1 + (x2 - x1) - 1) 16 - Int.fdiv x1 16 + 1,
    d := Int.fdiv (z1 + (z2 - z1) - 1) 16 - Int.fdiv z1 16 + 1 }

/-- The `WorldSlice` of `worldLoader.py`: the requested rectangle
`(x1, z1, sizeX, sizeZ)`, its chunk rectangle, and the cached sections. -/
structure WorldSliceL where
  x1 : Int
  z1 : Int
  sx : Int
  sz : Int
  chunkRect : ChunkRect
  sections : List CachedSection

/-- The linear scan of `getBlockCompoundAt` over the section list. -/
def findSection (sections : List CachedSection) (cx cy cz : Int) :
    Option CachedSection :=
  sections.find? (fun s => s.x = cx && s.y = cy && s.z = cz)

/-- `WorldSlice.getBlockCompoundAt`: locates the section of the coordinate
(chunk-grid translation with Python `>> 4` and `% 16` semantics) and
resolves the packed palette index; reports `none` ("no data") when the
section is absent.  (A palette index beyond the palette would raise in
Python; valid data never produces one and the embedded `getD` default is
never reached by the claims.) -/
def getBlockCompoundAt (ws : WorldSliceL) (x y z : Int) : Option PaletteEntry :=
  let chunkX := Int.fdiv x 16 - ws.chunkRect.ox
  let chunkZ := Int.fdiv z 16 - ws.chunkRect.oz
  let chunkY := Int.fdiv y 16
  match findSection ws.sections chunkX chunkY chunkZ with
  | none => none
  | some s =>
    let blockIndex := Int.emod y 16 * 256 + Int.emod z 16 * 16 + Int.emod x 16
    some (s.blockPalette.getD
      (bitArrayGetAtOpt s.blockBits s.blockData blockIndex.toNat) ⟨""⟩)

/-- `WorldSlice.getBlockAt`: the namespaced id at the coordinate, resolving
the "no data" result to the `minecraft:void_air` sentinel. -/
def getBlockAt (ws : WorldSliceL) (x y z : Int) : String :=
  match getBlockCompoundAt ws x y z with
  | none => "minecraft:void_air"
  | some e => e.name

/-- numpy 2D assignment `a[i, j] = v` as the heightmap loop uses it: a
negative index within `-size ≤ i < 0` wraps to `size + i`; an index outside
`-size ≤ i < size` raises `IndexError`, which the loop catches and ignores
(modelled as leaving the array unchanged). -/
def npSet2 (a : List (List Int)) (i j : Int) (v : Int) : List (List Int) :=
  let n : Int := a.length
  let i' := if i < 0 then i + n else i
  if 0 ≤ i' ∧ i' < n then
    let row := a.getD i'.toNat []
    let m : Int := row.length
    let j' := if j < 0 then j + m else j
    if 0 ≤ j' ∧ j' < m then a.set i'.toNat (row.set j'.toNat v) else a
  else a

/-- `np.zeros((rect[2] + 1, rect[3] + 1))`: the heightmap array, sized one
more than the rectangle in each dimension, as in the code. -/
def hmInit (sx sz : Int) : List (List Int) :=
  List.replicate (sx + 1).toNat (List.replicate (sz + 1).toNat 0)

/-- The inner `for cx in range(16)` loop of the heightmap assembly, for one
chunk row `cz` of the chunk at chunk-grid `(x, z)` with the region's
`rectOffset` `(offX, offZ)`: each decoded 9-bit value, biased by `-64`, is
assigned at `[-offX + x*16 + cx, -offZ + z*16 + cz]` with numpy index
semantics. -/
def hmRow (offX offZ : Int) (x z : Nat) (words : List Nat)
    (hm : List (List Int)) (cz : Nat) : List (List Int) :=
  (List.range 16).foldl (fun hm (cx : Nat) =>
    npSet2 hm (-offX + Int.ofNat x * 16 + Int.ofNat cx)
      (-offZ + Int.ofNat z * 16 + Int.ofNat cz)
      (Int.ofNat (bitArrayGetAt 9 words (cz * 16 + cx)) - 64)) hm

/-- The `for cz in range(16)` loop of the heightmap assembly for one chunk:
all 256 cells of the chunk's 9-bit packed heightmap are decoded and
assigned. -/
def hmChunkLoop (offX offZ : Int) (x z : Nat) (words : List Nat)
    (hm : List (List Int)) : List (List Int) :=
  (List.range 16).foldl (hmRow offX offZ x z words) hm

/-- The heightmap assembly loop of `WorldSlice.__init__` for one heightmap
kind: for every chunk of the chunk rectangle decode the 256-entry 9-bit
packed array into the region array (`chunkWords x z` is the chunk's packed
array for this kind; `rectOffset = (x1 % 16, z1 % 16)`). -/
def buildHeightmap (x1 z1 x2 z2 : Int) (chunkWords : Nat → Nat → List Nat) :
    List (List Int) :=
  let cr := chunkRectOf x1 z1 x2 z2
  (List.range cr.w.toNat).foldl (fun hm (x : Nat) =>
    (List.range cr.d.toNat).foldl (fun hm (z : Nat) =>
      hmChunkLoop (Int.emod x1 16) (Int.emod z1 16) x z (chunkWords x z) hm)
      hm)
    (hmInit (x2 - x1) (z2 - z1))

/-!  Concrete states used by witnesses and counterexamples.  -/

/-- A remote store where every block is stone and every operation succeeds
with result token `"0"`. -/
def rwOk : RemoteWorld :=
  { blocks := fun _ => ⟨"minecraft:stone"⟩,
    placeResult := fun _ _ _ => "0",
    commandResult := fun _ => ["0"],
    fetchSlice := fun r => ⟨r, fun _ => ⟨"minecraft:air"⟩⟩ }

/-- An editor state with the constructor defaults of `Editor.__init__`
(buffering and caching off, empty buffers and cache, no cached snapshot)
over the `rwOk` remote store. -/
def baseState : EditorState :=
  { buffering := false, bufferLimit := 1024, buffer := [], commandBuffer := [],
    caching := false, cache := [], cacheLimit := 8192,
    doBlockUpdates := true, bufferDoBlockUpdates := true,
    worldSlice := none, decay := fun _ => false,
    remote := rwOk, flushCount := 0, warnings := [] }

/-- A cached snapshot over the rectangle from (0,0) to (16,16), all stone. -/
def wsStone : WorldSliceE :=
  ⟨⟨0, 0, 16, 16⟩, fun _ => ⟨"minecraft:stone"⟩⟩

/-- Editor state for the C1 witness: `wsStone` is cached and one cell of the
Decay Mask is already set. -/
def s1State : EditorState :=
  { baseState with worldSlice := some wsStone,
                   decay := fun p => decide (p = (1, 2, 3)) }

/-- Editor state for the C2 counterexample: buffering enabled with buffer
limit 1 and an empty buffer. -/
def s2State : EditorState :=
  { baseState with buffering := true, bufferLimit := 1 }

/-- Editor state for the C3 counterexample: caching enabled, empty cache. -/
def s3State : EditorState :=
  { baseState with caching := true }

/-- A remote store where every block is iron and every operation succeeds. -/
def rwIron : RemoteWorld :=
  { rwOk with blocks := fun _ => ⟨"minecraft:iron_block"⟩ }

/-- Editor state for the C4 counterexample: caching enabled with cache limit
1, the cache holding a gold block for the out-of-region position `q4Pos`,
and `wsStone` cached as the snapshot. -/
def s4State : EditorState :=
  { baseState with caching := true, cacheLimit := 1,
                   cache := [((100, 0, 100), ⟨"minecraft:gold_block"⟩)],
                   worldSlice := some wsStone, remote := rwIron }

/-- The in-region write position of the C4 counterexample. -/
def p4Pos : Pos := (0, 0, 0)

/-- The out-of-region read position of the C4 counterexample. -/
def q4Pos : Pos := (100, 0, 100)

/-- Editor state for the C4 amended witness: caching enabled with an empty
cache, `wsStone` cached as the snapshot, over the always-succeeding `rwOk`
remote store. -/
def s4WitState : EditorState :=
  { baseState with caching := true, worldSlice := some wsStone }

/-- A 64-bit word packing the seven 9-bit values `7*k .. 7*k+6`
low-bit-first: word `k` of a packed array whose entry `i` decodes to `i`. -/
def idxWord (k : Nat) : Nat :=
  (List.range 7).foldl (fun acc j => acc + (7 * k + j) * 2 ^ (9 * j)) 0

/-- The 37-word packed 9-bit array whose 256 entries decode to their own
indices (`getAt i = i`). -/
def idxWords : List Nat := (List.range 37).map idxWord

/-- The heightmap the code builds for the rectangle from (1,1) to (16,16)
(a 15×15 region not aligned to the chunk grid) over a single chunk whose
packed heightmap entry at `(cx, cz)` is `cz * 16 + cx`. -/
def hm6 : List (List Int) := buildHeightmap 1 1 16 16 (fun _ _ => idxWords)

/-- The intermediate array after the first eight `cz` iterations of the
heightmap loop for `hm6` (stated as a literal so that the 256-step loop can
be evaluated in two halves). -/
def hm6Mid : List (List Int) :=
  [[-47, -31, -15, 1, 17, 33, 49, 0, 0, 0, 0, 0, 0, 0, 0, -63],
   [-46, -30, -14, 2, 18, 34, 50, 0, 0, 0, 0, 0, 0, 0, 0, -62],
   [-45, -29, -13, 3, 19, 35, 51, 0, 0, 0, 0, 0, 0, 0, 0, -61],
   [-44, -28, -12, 4, 20, 36, 52, 0, 0, 0, 0, 0, 0, 0, 0, -60],
   [-43, -27, -11, 5, 21, 37, 53, 0, 0, 0, 0, 0, 0, 0, 0, -59],
   [-42, -26, -10, 6, 22, 38, 54, 0, 0, 0, 0, 0, 0, 0, 0, -58],
   [-41, -25, -9, 7, 23, 39, 55, 0, 0, 0, 0, 0, 0, 0, 0, -57],
   [-40, -24, -8, 8, 24, 40, 56, 0, 0, 0, 0, 0, 0, 0, 0, -56],
   [-39, -23, -7, 9, 25, 41, 57, 0, 0, 0, 0, 0, 0, 0, 0, -55],
   [-38, -22, -6, 10, 26, 42, 58, 0, 0, 0, 0, 0, 0, 0, 0, -54],
   [-37, -21, -5, 11, 27, 43, 59, 0, 0, 0, 0, 0, 0, 0, 0, -53],
   [-36, -20, -4, 12, 28, 44, 60, 0, 0, 0, 0, 0, 0, 0, 0, -52],
   [-35, -19, -3, 13, 29, 45, 61, 0, 0, 0, 0, 0, 0, 0, 0, -51],
   [-34, -18, -2, 14, 30, 46, 62, 0, 0, 0, 0, 0, 0, 0, 0, -50],
   [-33, -17, -1, 15, 31, 47, 63, 0, 0, 0, 0, 0, 0, 0, 0, -49],
   [-48, -32, -16, 0, 16, 32, 48, 0, 0, 0, 0, 0, 0, 0, 0, -64]]

/-- A `worldLoader.WorldSlice` over the rectangle from (0,0) to (16,16)
whose section list is empty (every section was omitted). -/
def wsl0 : WorldSliceL :=
  { x1 := 0, z1 := 0, sx := 16, sz := 16,
    chunkRect := chunkRectOf 0 0 16 16, sections := [] }

/-- A sequence of buffered stagings (`_placeSingleBlockGlobalBuffered` once
per position, all with the same block and effective flag). -/
def stageMany (S : EditorState) (ps : List Pos) (b : Block) (d : Bool) :
    EditorState :=
  ps.foldl (fun s p => placeSingleBlockGlobalBuffered s p b d) S

/-- The buffer-uniformity invariant: every pending entry was staged under
the buffer's current `doBlockUpdates` flag (the ghost third component). -/
def bufferUniform (S : EditorState) : Prop :=
  ∀ e ∈ S.buffer, e.2.2 = S.bufferDoBlockUpdates

/-- What a read returns at a position that misses the Lookup Cache and is
outside the cached snapshot's region: the Write Buffer entry if buffering is
enabled and one is pending, else the remote block. -/
def readFallback (S : EditorState) (q : Pos) : Block :=
  match (if S.buffering then bufferFind S.buffer q else none) with
  | some b => b
  | none => S.remote.blocks q

/-- State observations that determine what a read at `q` outside the cached
snapshot's region returns, related between a state and its successor: the
fallback result at `q` is unchanged, the mode flags and snapshot are
unchanged, absence of `q` from the Lookup Cache is preserved, the placement
oracle is unchanged, and well-formedness (distinct buffer keys) is
preserved. -/
def qPreserved (q : Pos) (S T : EditorState) : Prop :=
  readFallback T q = readFallback S q ∧
  T.buffering = S.buffering ∧
  T.caching = S.caching ∧
  T.worldSlice = S.worldSlice ∧
  (cacheFind S.cache q = none → cacheFind T.cache q = none) ∧
  T.remote.placeResult = S.remote.placeResult ∧
  ((S.buffer.map (fun e => e.1)).Nodup → (T.buffer.map (fun e => e.1)).Nodup)

/-!  Helper lemmas.  -/

theorem qPreserved_refl (q : Pos) (S : EditorState) : qPreserved q S S :=
  ⟨rfl, rfl, rfl, rfl, id, rfl, id⟩

theorem qPreserved_trans (q : Pos) (S T U : EditorState)
    (h1 : qPreserved q S T) (h2 : qPreserved q T U) : qPreserved q S U := by
  obtain ⟨a1, a2, a3, a4, a5, a6, a7⟩ := h1
  obtain ⟨b1, b2, b3, b4, b5, b6, b7⟩ := h2
  exact ⟨b1.trans a1, b2.trans a2, b3.trans a3, b4.trans a4,
    fun h => b5 (a5 h), b6.trans a6, fun h => b7 (a7 h)⟩

theorem cacheFind_eq_none (c : List (Pos × Block)) (q : Pos) :
    cacheFind c q = none ↔ ∀ e ∈ c, e.1 ≠ q := by
  induction c with
  | nil => simp [cacheFind]
  | cons e rest ih =>
    by_cases h : e.1 = q <;> simp [cacheFind, h, ih]

theorem cacheFind_append_left_none (c₁ c₂ : List (Pos × Block)) (q : Pos)
    (h : cacheFind c₁ q = none) :
    cacheFind (c₁ ++ c₂) q = cacheFind c₂ q := by
  induction c₁ with
  | nil => simp
  | cons e rest ih =>
    rw [cacheFind_eq_none] at h
    have he : e.1 ≠ q := h e (by simp)
    have hr : cacheFind rest q = none := by
      rw [cacheFind_eq_none]
      intro e' he'
      exact h e' (by simp [he'])
    simpa [cacheFind, he] using ih hr

theorem cacheFind_filter_ne_self (c : List (Pos × Block)) (p : Pos) :
    cacheFind (c.filter (fun e => e.1 ≠ p)) p = none := by
  rw [cacheFind_eq_none]
  intro e he
  simpa using (List.mem_filter.mp he).2

theorem cacheFind_cachePromote_self (c : List (Pos × Block)) (p : Pos)
    (b : Block) : cacheFind (cachePromote c p b) p = some b := by
  unfold cachePromote
  rw [cacheFind_append_left_none _ _ _ (cacheFind_filter_ne_self c p)]
  simp [cacheFind]

theorem mem_of_mem_drop {α : Type} {l : List α} {k : Nat} {a : α}
    (h : a ∈ l.drop k) : a ∈ l :=
  List.drop_subset k l h

theorem cacheFind_none_cachePut (c : List (Pos × Block)) (m : Nat)
    (p q : Pos) (b : Block) (hq : q ≠ p) (h : cacheFind c q = none) :
    cacheFind (cachePut c m p b) q = none := by
  unfold cachePut
  rw [cacheFind_eq_none]
  intro e he
  have he' := mem_of_mem_drop he
  rcases List.mem_append.mp he' with h1 | h2
  · exact (cacheFind_eq_none c q).mp h e (List.mem_filter.mp h1).1
  · simp only [List.mem_singleton] at h2
    subst h2
    simpa using hq.symm

theorem cacheFind_none_cachePromote (c : List (Pos × Block)) (p q : Pos)
    (b : Block) (hq : q ≠ p) (h : cacheFind c q = none) :
    cacheFind (cachePromote c p b) q = none := by
  unfold cachePromote
  rw [cacheFind_eq_none]
  intro e he
  rcases List.mem_append.mp he with h1 | h2
  · exact (cacheFind_eq_none c q).mp h e (List.mem_filter.mp h1).1
  · simp only [List.mem_singleton] at h2
    subst h2
    simpa using hq.symm

theorem cacheFind_drop_filter_ne (c : List (Pos × Block)) (p : Pos) (k : Nat) :
    cacheFind ((c.filter (fun e => e.1 ≠ p)).drop k) p = none := by
  rw [cacheFind_eq_none]
  intro e he
  simpa using (List.mem_filter.mp (mem_of_mem_drop he)).2

theorem cacheFind_cachePut_self (c : List (Pos × Block)) (m : Nat) (p : Pos)
    (b : Block) (hm : 1 ≤ m) :
    cacheFind (cachePut c m p b) p = some b := by
  unfold cachePut
  have h0 : ((c.filter (fun e => e.1 ≠ p)) ++ [(p, b)]).length - m
      - (c.filter (fun e => e.1 ≠ p)).length = 0 := by
    simp only [List.length_append, List.length_singleton]
    omega
  rw [List.drop_append_eq_append_drop, h0, List.drop_zero,
    cacheFind_append_left_none _ _ _ (cacheFind_drop_filter_ne c p _)]
  simp [cacheFind]

theorem bufferFind_eq_none (l : List (Pos × Block × Bool)) (q : Pos) :
    bufferFind l q = none ↔ ∀ e ∈ l, e.1 ≠ q := by
  induction l with
  | nil => simp [bufferFind]
  | cons e rest ih =>
    by_cases h : e.1 = q <;> simp [bufferFind, h, ih]

theorem bufferFind_some_mem (l : List (Pos × Block × Bool)) (q : Pos)
    (b : Block) (h : bufferFind l q = some b) : ∃ g, (q, b, g) ∈ l := by
  induction l with
  | nil => simp [bufferFind] at h
  | cons e rest ih =>
    by_cases he : e.1 = q
    · rw [bufferFind, if_pos he] at h
      refine ⟨e.2.2, ?_⟩
      have : e = (q, b, e.2.2) := by
        obtain ⟨x, y, g⟩ := e
        simp_all
      simp [← this]
    · rw [bufferFind, if_neg he] at h
      obtain ⟨g, hg⟩ := ih h
      exact ⟨g, by simp [hg]⟩

theorem bufferFind_bufferInsert_self (l : List (Pos × Block × Bool)) (p : Pos)
    (b : Block) (g : Bool) : bufferFind (bufferInsert l p b g) p = some b := by
  induction l with
  | nil => simp [bufferInsert, bufferFind]
  | cons e rest ih =>
    by_cases h : e.1 = p
    · simp [bufferInsert, h, bufferFind]
    · simp [bufferInsert, h, bufferFind, ih]

theorem bufferFind_bufferInsert_ne (l : List (Pos × Block × Bool)) (p q : Pos)
    (b : Block) (g : Bool) (hq : q ≠ p) :
    bufferFind (bufferInsert l p b g) q = bufferFind l q := by
  have hpq : p ≠ q := fun h => hq h.symm
  induction l with
  | nil => simp [bufferInsert, bufferFind, hpq]
  | cons e rest ih =>
    by_cases h : e.1 = p
    · have h2 : e.1 ≠ q := by rw [h]; exact hpq
      rw [bufferInsert, if_pos h, bufferFind, if_neg hpq, bufferFind, if_neg h2]
    · rw [bufferInsert, if_neg h]
      by_cases h2 : e.1 = q
      · rw [bufferFind, if_pos h2, bufferFind, if_pos h2]
      · rw [bufferFind, if_neg h2, bufferFind, if_neg h2, ih]

theorem bufferInsert_mem (l : List (Pos × Block × Bool)) (p : Pos) (b : Block)
    (g : Bool) (e : Pos × Block × Bool) (he : e ∈ bufferInsert l p b g) :
    e = (p, b, g) ∨ e ∈ l := by
  induction l with
  | nil => simpa [bufferInsert] using he
  | cons f rest ih =>
    by_cases h : f.1 = p
    · rw [bufferInsert, if_pos h] at he
      rcases List.mem_cons.mp he with h1 | h2
      · exact Or.inl h1
      · exact Or.inr (by simp [h2])
    · rw [bufferInsert, if_neg h] at he
      rcases List.mem_cons.mp he with h1 | h2
      · exact Or.inr (by simp [h1])
      · rcases ih h2 with h3 | h4
        · exact Or.inl h3
        · exact Or.inr (by simp [h4])

theorem bufferInsert_fresh (l : List (Pos × Block × Bool)) (p : Pos)
    (b : Block) (g : Bool) (h : bufferFind l p = none) :
    bufferInsert l p b g = l ++ [(p, b, g)] := by
  induction l with
  | nil => simp [bufferInsert]
  | cons e rest ih =>
    rw [bufferFind_eq_none] at h
    have he : e.1 ≠ p := h e (by simp)
    have hr : bufferFind rest p = none := by
      rw [bufferFind_eq_none]
      exact fun e' he' => h e' (by simp [he'])
    simp [bufferInsert, he, ih hr]

theorem bufferFind_append_none (l₁ l₂ : List (Pos × Block × Bool)) (q : Pos)
    (h₁ : bufferFind l₁ q = none) (h₂ : bufferFind l₂ q = none) :
    bufferFind (l₁ ++ l₂) q = none := by
  rw [bufferFind_eq_none] at h₁ h₂ ⊢
  intro e he
  rcases List.mem_append.mp he with h | h
  · exact h₁ e h
  · exact h₂ e h

theorem placeBlocksGo_oracle (rw : RemoteWorld) (items : List (Pos × Block))
    (dbu : Bool) :
    (placeBlocksGo rw items dbu).2.placeResult = rw.placeResult ∧
    (placeBlocksGo rw items dbu).2.commandResult = rw.commandResult ∧
    (placeBlocksGo rw items dbu).2.fetchSlice = rw.fetchSlice := by
  induction items generalizing rw with
  | nil => simp [placeBlocksGo]
  | cons e rest ih =>
    obtain ⟨p, b⟩ := e
    by_cases h : pyIsnumeric (rw.placeResult p b dbu) <;>
      simpa [placeBlocksGo, h] using ih _

theorem placeBlocksGo_blocks_notmem (rw : RemoteWorld)
    (items : List (Pos × Block)) (dbu : Bool) (r : Pos)
    (h : ∀ e ∈ items, e.1 ≠ r) :
    (placeBlocksGo rw items dbu).2.blocks r = rw.blocks r := by
  induction items generalizing rw with
  | nil => simp [placeBlocksGo]
  | cons e rest ih =>
    obtain ⟨p, b⟩ := e
    have hp : p ≠ r := h (p, b) (by simp)
    have hrest : ∀ e ∈ rest, e.1 ≠ r := fun e he => h e (by simp [he])
    have hrp : r ≠ p := fun hh => hp hh.symm
    by_cases hn : pyIsnumeric (rw.placeResult p b dbu)
    · rw [placeBlocksGo]
      simp only [hn, if_pos]
      rw [ih _ hrest]
      simp [hrp]
    · rw [placeBlocksGo]
      simp only [hn]
      simpa using ih _ hrest

theorem placeBlocksGo_blocks_mem (rw : RemoteWorld)
    (items : List (Pos × Block)) (dbu : Bool) (r : Pos) (c : Block)
    (hok : ∀ p b, pyIsnumeric (rw.placeResult p b dbu) = true)
    (hnd : (items.map (fun e => e.1)).Nodup)
    (hmem : (r, c) ∈ items) :
    (placeBlocksGo rw items dbu).2.blocks r = c := by
  induction items generalizing rw with
  | nil => simp at hmem
  | cons e rest ih =>
    obtain ⟨p, b⟩ := e
    simp only [List.map_cons, List.nodup_cons] at hnd
    rcases List.mem_cons.mp hmem with h1 | h2
    · rw [Prod.mk.injEq] at h1
      obtain ⟨hr, hc⟩ := h1
      subst hr
      subst hc
      rw [placeBlocksGo]
      simp only [hok r c, if_pos]
      rw [placeBlocksGo_blocks_notmem]
      · simp
      · intro e he hh
        exact hnd.1 (by rw [← hh]; exact List.mem_map_of_mem _ he)
    · rw [placeBlocksGo]
      simp only [hok p b, if_pos]
      exact ih _ (fun p' b' => by simpa using hok p' b') hnd.2 h2

theorem sendBufferedBlocks_fields (S : EditorState) :
    (sendBufferedBlocks S).buffer = [] ∧
    (sendBufferedBlocks S).commandBuffer = [] ∧
    (sendBufferedBlocks S).flushCount = S.flushCount + 1 ∧
    (sendBufferedBlocks S).buffering = S.buffering ∧
    (sendBufferedBlocks S).bufferLimit = S.bufferLimit ∧
    (sendBufferedBlocks S).caching = S.caching ∧
    (sendBufferedBlocks S).cache = S.cache ∧
    (sendBufferedBlocks S).cacheLimit = S.cacheLimit ∧
    (sendBufferedBlocks S).doBlockUpdates = S.doBlockUpdates ∧
    (sendBufferedBlocks S).bufferDoBlockUpdates = S.bufferDoBlockUpdates ∧
    (sendBufferedBlocks S).worldSlice = S.worldSlice ∧
    (sendBufferedBlocks S).decay = S.decay ∧
    (sendBufferedBlocks S).remote.placeResult = S.remote.placeResult ∧
    (sendBufferedBlocks S).remote.commandResult = S.remote.commandResult ∧
    (sendBufferedBlocks S).remote.fetchSlice = S.remote.fetchSlice := by
  unfold sendBufferedBlocks
  obtain ⟨h1, h2, h3⟩ := placeBlocksGo_oracle S.remote
    (S.buffer.map (fun e => (e.1, e.2.1))) S.bufferDoBlockUpdates
  by_cases hb : S.buffer.isEmpty <;> by_cases hc : S.commandBuffer.isEmpty <;>
    simp_all [List.isEmpty_iff]

theorem sendBufferedBlocks_blocks_notmem (S : EditorState) (r : Pos)
    (h : ∀ e ∈ S.buffer, e.1 ≠ r) :
    (sendBufferedBlocks S).remote.blocks r = S.remote.blocks r := by
  unfold sendBufferedBlocks
  have hnot : ∀ e ∈ S.buffer.map (fun e => (e.1, e.2.1)), e.1 ≠ r := by
    intro e he
    obtain ⟨f, hf, rfl⟩ := List.mem_map.mp he
    exact h f hf
  have hgo := placeBlocksGo_blocks_notmem S.remote
    (S.buffer.map (fun e => (e.1, e.2.1))) S.bufferDoBlockUpdates r hnot
  by_cases hb : S.buffer.isEmpty
  · by_cases hc : S.commandBuffer.isEmpty
    · simp [hb, hc]
    · simp [hb, hc]
  · by_cases hc : S.commandBuffer.isEmpty
    · simp [hb, hc, hgo]
    · simp [hb, hc, hgo]

theorem sendBufferedBlocks_blocks_mem (S : EditorState) (r : Pos) (c : Block)
    (g : Bool)
    (hok : ∀ p b, pyIsnumeric (S.remote.placeResult p b S.bufferDoBlockUpdates)
      = true)
    (hnd : (S.buffer.map (fun e => e.1)).Nodup)
    (hmem : (r, c, g) ∈ S.buffer) :
    (sendBufferedBlocks S).remote.blocks r = c := by
  unfold sendBufferedBlocks
  have hb : ¬S.buffer.isEmpty := by
    intro h
    rw [List.isEmpty_iff] at h
    rw [h] at hmem
    simp at hmem
  have hnd' : ((S.buffer.map (fun e => (e.1, e.2.1))).map
      (fun e => e.1)).Nodup := by
    simpa [List.map_map, Function.comp] using hnd
  have hmem' : (r, c) ∈ S.buffer.map (fun e => (e.1, e.2.1)) := by
    exact List.mem_map.mpr ⟨(r, c, g), hmem, rfl⟩
  have := placeBlocksGo_blocks_mem S.remote
    (S.buffer.map (fun e => (e.1, e.2.1))) S.bufferDoBlockUpdates r c hok
    hnd' hmem'
  by_cases hc : S.commandBuffer.isEmpty <;> simp_all

theorem getBlockGlobal_state_fields (S : EditorState) (pos : Pos) :
    (getBlockGlobal S pos).state.buffering = S.buffering ∧
    (getBlockGlobal S pos).state.bufferLimit = S.bufferLimit ∧
    (getBlockGlobal S pos).state.buffer = S.buffer ∧
    (getBlockGlobal S pos).state.commandBuffer = S.commandBuffer ∧
    (getBlockGlobal S pos).state.caching = S.caching ∧
    (getBlockGlobal S pos).state.cacheLimit = S.cacheLimit ∧
    (getBlockGlobal S pos).state.doBlockUpdates = S.doBlockUpdates ∧
    (getBlockGlobal S pos).state.bufferDoBlockUpdates
      = S.bufferDoBlockUpdates ∧
    (getBlockGlobal S pos).state.worldSlice = S.worldSlice ∧
    (getBlockGlobal S pos).state.decay = S.decay ∧
    (getBlockGlobal S pos).state.remote = S.remote ∧
    (getBlockGlobal S pos).state.flushCount = S.flushCount ∧
    (getBlockGlobal S pos).state.warnings = S.warnings := by
  unfold getBlockGlobal
  rcases h1 : (if S.caching then cacheFind S.cache pos else none) with _ | b
  · rcases h2 : (if S.buffering then bufferFind S.buffer pos else none)
      with _ | b
    · by_cases h3 : S.caching <;> simp [h3]
    · simp
  · simp

theorem stageMany_fill (b : Block) (d : Bool) : ∀ (ps : List Pos)
    (S : EditorState), S.bufferDoBlockUpdates = d →
    (∀ p ∈ ps, bufferFind S.buffer p = none) → ps.Nodup →
    S.buffer.length + ps.length ≤ S.bufferLimit →
    stageMany S ps b d
      = { S with buffer := S.buffer ++ ps.map (fun p => (p, b, d)) } := by
  intro ps
  induction ps with
  | nil =>
    intro S h1 h2 h3 h4
    simp [stageMany]
  | cons p rest ih =>
    intro S h1 h2 h3 h4
    have hflag : ¬(d ≠ S.bufferDoBlockUpdates) := by simp [h1]
    have hlim : ¬(S.bufferLimit ≤ S.buffer.length) := by
      simp only [List.length_cons] at h4
      omega
    have hstep : placeSingleBlockGlobalBuffered S p b d
        = { S with buffer := S.buffer ++ [(p, b, d)] } := by
      simp only [placeSingleBlockGlobalBuffered]
      rw [if_neg hflag, if_neg hlim,
        bufferInsert_fresh _ _ _ _ (h2 p (by simp))]
    have hmany : stageMany S (p :: rest) b d
        = stageMany (placeSingleBlockGlobalBuffered S p b d) rest b d := by
      simp [stageMany]
    simp only [List.nodup_cons] at h3
    have hfresh : ∀ q ∈ rest, bufferFind (S.buffer ++ [(p, b, d)]) q = none := by
      intro q hq
      refine bufferFind_append_none _ _ _ (h2 q (by simp [hq])) ?_
      rw [bufferFind_eq_none]
      intro e he
      simp only [List.mem_singleton] at he
      subst he
      intro hh
      rw [← hh] at hq
      exact h3.1 hq
    have hlen2 : (S.buffer ++ [(p, b, d)]).length + rest.length
        ≤ S.bufferLimit := by
      simp only [List.length_append, List.length_singleton]
      simp only [List.length_cons] at h4
      omega
    have hres := ih { S with buffer := S.buffer ++ [(p, b, d)] } h1 hfresh
      h3.2 hlen2
    rw [hmany, hstep, hres]
    simp

theorem hm6_chunk : hm6 = hmChunkLoop 1 1 0 0 idxWords (hmInit 15 15) := by
  simp only [hm6, buildHeightmap]
  norm_num [chunkRectOf]
  have hr : (Int.fdiv 15 16 - Int.fdiv 1 16 + 1).toNat = 1 := by decide
  rw [hr]
  have hr1 : List.range 1 = [0] := by decide
  rw [hr1]
  simp only [List.foldl_cons, List.foldl_nil]

set_option maxRecDepth 40000 in
theorem hm6_split :
    hm6 = ((List.range 8).map (8 + ·)).foldl (hmRow 1 1 0 0 idxWords) hm6Mid := by
  rw [hm6_chunk]
  have h0 : hmChunkLoop 1 1 0 0 idxWords (hmInit 15 15)
      = (List.range 16).foldl (hmRow 1 1 0 0 idxWords) (hmInit 15 15) := rfl
  have h1 : (List.range 8).foldl (hmRow 1 1 0 0 idxWords) (hmInit 15 15)
      = hm6Mid := by decide
  have h2 : List.range 16 = List.range 8 ++ (List.range 8).map (8 + ·) :=
    List.range_add 8 8
  rw [h0, h2, List.foldl_append, h1]

theorem getBlockGlobal_eq_cacheHit (S : EditorState) (pos : Pos) (b : Block)
    (hc : S.caching = true) (hcf : cacheFind S.cache pos = some b) :
    getBlockGlobal S pos
      = ⟨b, .cacheHit, { S with cache := cachePromote S.cache pos b }⟩ := by
  unfold getBlockGlobal
  rw [hc]
  simp [hcf]

theorem getBlockGlobal_eq_bufferHit (S : EditorState) (pos : Pos) (b : Block)
    (hm : (if S.caching then cacheFind S.cache pos else none) = none)
    (hb : S.buffering = true) (hbf : bufferFind S.buffer pos = some b) :
    getBlockGlobal S pos = ⟨b, .bufferHit, S⟩ := by
  unfold getBlockGlobal
  rw [hm, hb]
  simp [hbf]

theorem getBlockGlobal_eq_fallback (S : EditorState) (pos : Pos)
    (hm : (if S.caching then cacheFind S.cache pos else none) = none)
    (hm2 : (if S.buffering then bufferFind S.buffer pos else none) = none) :
    getBlockGlobal S pos
      = (match sliceUsable S pos with
         | some b =>
           if S.caching then
             (⟨b, .sliceHit,
               { S with cache := cachePut S.cache S.cacheLimit pos b }⟩
               : ReadResult)
           else ⟨b, .sliceHit, S⟩
         | none =>
           if S.caching then
             ⟨S.remote.blocks pos, .network,
               { S with
                 cache := cachePut S.cache S.cacheLimit pos (S.remote.blocks pos) }⟩
           else ⟨S.remote.blocks pos, .network, S⟩) := by
  unfold getBlockGlobal
  rw [hm, hm2]
  rcases hsu : sliceUsable S pos with _ | b <;>
    by_cases hc : S.caching <;> simp [hsu, hc]

theorem if_opt_some {α : Type} {c : Prop} [Decidable c] {x : Option α} {b : α}
    (h : (if c then x else none) = some b) : c ∧ x = some b := by
  by_cases hc : c
  · rw [if_pos hc] at h
    exact ⟨hc, h⟩
  · rw [if_neg hc] at h
    cases h

theorem q_ne_p_of_containsB (ws : WorldSliceE) (p q : Pos)
    (hp : ws.rect.containsB (dropY p) = true)
    (hq : ws.rect.containsB (dropY q) = false) : q ≠ p := by
  intro h
  rw [h, hp] at hq
  cases hq

theorem readFallback_eq_of (S T : EditorState) (q : Pos)
    (h1 : T.buffering = S.buffering)
    (h2 : bufferFind T.buffer q = bufferFind S.buffer q)
    (h3 : T.remote.blocks q = S.remote.blocks q) :
    readFallback T q = readFallback S q := by
  unfold readFallback
  rw [h1, h2, h3]

theorem readFallback_congr (S T : EditorState) (q : Pos)
    (h1 : T.buffering = S.buffering) (h2 : T.buffer = S.buffer)
    (h3 : T.remote.blocks q = S.remote.blocks q) :
    readFallback T q = readFallback S q :=
  readFallback_eq_of S T q h1 (by rw [h2]) h3

theorem getBlockGlobal_cache_none (S : EditorState) (p q : Pos) (hpq : q ≠ p)
    (h : cacheFind S.cache q = none) :
    cacheFind (getBlockGlobal S p).state.cache q = none := by
  rcases h1 : (if S.caching then cacheFind S.cache p else none) with _ | b
  · rcases h2 : (if S.buffering then bufferFind S.buffer p else none) with _ | b
    · rw [getBlockGlobal_eq_fallback S p h1 h2]
      rcases hsu : sliceUsable S p with _ | b <;> by_cases hc : S.caching <;>
        simp only [hc, if_true, if_false] <;>
        first
        | exact h
        | exact cacheFind_none_cachePut _ _ _ _ _ hpq h
    · obtain ⟨hb, hbf⟩ := if_opt_some h2
      rw [getBlockGlobal_eq_bufferHit S p b h1 hb hbf]
      exact h
  · obtain ⟨hc, hcf⟩ := if_opt_some h1
    rw [getBlockGlobal_eq_cacheHit S p b hc hcf]
    exact cacheFind_none_cachePromote _ _ _ _ hpq h

theorem getBlockGlobal_block_outside (S : EditorState) (q : Pos)
    (ws : WorldSliceE) (hws : S.worldSlice = some ws)
    (hq : ws.rect.containsB (dropY q) = false)
    (hqc : cacheFind S.cache q = none) :
    (getBlockGlobal S q).block = readFallback S q := by
  have hm : (if S.caching then cacheFind S.cache q else none) = none := by
    by_cases hc : S.caching <;> simp [hc, hqc]
  have hsu : sliceUsable S q = none := by
    unfold sliceUsable
    rw [hws]
    simp [hq]
  rcases hbf : (if S.buffering then bufferFind S.buffer q else none) with _ | b
  · rw [getBlockGlobal_eq_fallback S q hm hbf, hsu]
    unfold readFallback
    rw [hbf]
    by_cases hc : S.caching <;> simp [hc]
  · obtain ⟨hb, hbf'⟩ := if_opt_some hbf
    rw [getBlockGlobal_eq_bufferHit S q b hm hb hbf']
    unfold readFallback
    rw [hbf]

theorem getBlockGlobal_source_not_slice (S : EditorState) (pos : Pos)
    (hd : S.decay pos = true) :
    (getBlockGlobal S pos).source ≠ ReadSource.sliceHit := by
  have hsu : sliceUsable S pos = none := by
    unfold sliceUsable
    rcases S.worldSlice with _ | ws <;> simp [hd]
  rcases h1 : (if S.caching then cacheFind S.cache pos else none) with _ | b
  · rcases h2 : (if S.buffering then bufferFind S.buffer pos else none)
      with _ | b
    · rw [getBlockGlobal_eq_fallback S pos h1 h2, hsu]
      by_cases hc : S.caching <;> simp [hc]
    · obtain ⟨hb, hbf⟩ := if_opt_some h2
      rw [getBlockGlobal_eq_bufferHit S pos b h1 hb hbf]
      simp
  · obtain ⟨hc, hcf⟩ := if_opt_some h1
    rw [getBlockGlobal_eq_cacheHit S pos b hc hcf]
    simp

theorem getBlockGlobal_qPreserved (S : EditorState) (p q : Pos)
    (hpq : q ≠ p) : qPreserved q S (getBlockGlobal S p).state := by
  obtain ⟨hbg, -, hbuf, -, hcach, -, -, -, hws, -, hrem, -, -⟩ :=
    getBlockGlobal_state_fields S p
  refine ⟨?_, hbg, hcach, hws, fun h => getBlockGlobal_cache_none S p q hpq h,
    by rw [hrem], fun h => by rw [hbuf]; exact h⟩
  exact readFallback_congr S _ q hbg hbuf (by rw [hrem])

theorem bufferInsert_keys_nodup (l : List (Pos × Block × Bool)) (p : Pos)
    (b : Block) (g : Bool) (h : (l.map (fun e => e.1)).Nodup) :
    ((bufferInsert l p b g).map (fun e => e.1)).Nodup := by
  induction l with
  | nil => simp [bufferInsert]
  | cons e rest ih =>
    simp only [List.map_cons, List.nodup_cons] at h
    by_cases he : e.1 = p
    · rw [bufferInsert, if_pos he]
      simp only [List.map_cons, List.nodup_cons]
      exact ⟨by rw [← he]; exact h.1, h.2⟩
    · rw [bufferInsert, if_neg he]
      simp only [List.map_cons, List.nodup_cons]
      refine ⟨?_, ih h.2⟩
      intro hmem
      obtain ⟨f, hf, hfe⟩ := List.mem_map.mp hmem
      rcases bufferInsert_mem _ _ _ _ f hf with h1 | h2
      · rw [h1] at hfe
        exact he hfe.symm
      · exact h.1 (hfe ▸ List.mem_map_of_mem _ h2)

theorem sendBufferedBlocks_qPreserved (S : EditorState) (q : Pos)
    (hb : S.buffering = true)
    (hok : ∀ r c d', pyIsnumeric (S.remote.placeResult r c d') = true)
    (hnd : (S.buffer.map (fun e => e.1)).Nodup) :
    qPreserved q S (sendBufferedBlocks S) := by
  obtain ⟨hfb, -, -, hfbg, -, hfcach, hfcache, -, -, -, hfws, -, hfpr, -, -⟩ :=
    sendBufferedBlocks_fields S
  refine ⟨?_, hfbg, hfcach, hfws, fun h => by rw [hfcache]; exact h, hfpr,
    fun _ => by rw [hfb]; simp⟩
  rcases hbf : bufferFind S.buffer q with _ | c
  · have hnm : ∀ e ∈ S.buffer, e.1 ≠ q := (bufferFind_eq_none _ _).mp hbf
    have hblk := sendBufferedBlocks_blocks_notmem S q hnm
    unfold readFallback
    rw [hfbg, hfb, hb]
    simp only [if_true, bufferFind, hbf, hblk]
  · obtain ⟨g, hmem⟩ := bufferFind_some_mem _ _ _ hbf
    have hblk := sendBufferedBlocks_blocks_mem S q c g (fun r c' => hok r c' _)
      hnd hmem
    unfold readFallback
    rw [hfbg, hfb, hb]
    simp only [if_true, bufferFind, hbf, hblk]

theorem bufferInsert_qPreserved (S : EditorState) (p : Pos) (b : Block)
    (g : Bool) (q : Pos) (hpq : q ≠ p) :
    qPreserved q S { S with buffer := bufferInsert S.buffer p b g } :=
  ⟨readFallback_eq_of S _ q rfl
      (bufferFind_bufferInsert_ne S.buffer p q b g hpq) rfl,
    rfl, rfl, rfl, fun h => h, rfl,
    fun h => bufferInsert_keys_nodup _ _ _ _ h⟩

theorem stageBuffered_qPreserved (S : EditorState) (p : Pos) (b : Block)
    (d : Bool) (q : Pos) (hpq : q ≠ p) (hb : S.buffering = true)
    (hok : ∀ r c d', pyIsnumeric (S.remote.placeResult r c d') = true)
    (hnd : (S.buffer.map (fun e => e.1)).Nodup) :
    qPreserved q S (placeSingleBlockGlobalBuffered S p b d) := by
  obtain ⟨hfb, -, -, hfbg, -, hfcach, hfcache, -, -, hffd, hfws, -, hfpr, -, -⟩ :=
    sendBufferedBlocks_fields S
  by_cases hdiff : d ≠ S.bufferDoBlockUpdates
  · have hstep : placeSingleBlockGlobalBuffered S p b d
        = { { sendBufferedBlocks S with bufferDoBlockUpdates := d } with
            buffer := bufferInsert (sendBufferedBlocks S).buffer p b d } := by
      simp only [placeSingleBlockGlobalBuffered]
      rw [if_pos hdiff]
    rw [hstep]
    refine qPreserved_trans q S (sendBufferedBlocks S) _
      (sendBufferedBlocks_qPreserved S q hb hok hnd) ?_
    exact ⟨readFallback_eq_of (sendBufferedBlocks S) _ q rfl
        (bufferFind_bufferInsert_ne _ p q b d hpq) rfl,
      rfl, rfl, rfl, fun h => h, rfl,
      fun h => bufferInsert_keys_nodup _ _ _ _ h⟩
  · by_cases hlim : S.bufferLimit ≤ S.buffer.length
    · have hstep : placeSingleBlockGlobalBuffered S p b d
          = { sendBufferedBlocks S with
              buffer := bufferInsert (sendBufferedBlocks S).buffer p b d } := by
        simp only [placeSingleBlockGlobalBuffered]
        rw [if_neg hdiff, if_pos hlim]
      rw [hstep]
      exact qPreserved_trans q S (sendBufferedBlocks S) _
        (sendBufferedBlocks_qPreserved S q hb hok hnd)
        (bufferInsert_qPreserved (sendBufferedBlocks S) p b d q hpq)
    · have hstep : placeSingleBlockGlobalBuffered S p b d
          = { S with buffer := bufferInsert S.buffer p b d } := by
        simp only [placeSingleBlockGlobalBuffered]
        rw [if_neg hdiff, if_neg hlim]
      rw [hstep]
      exact bufferInsert_qPreserved S p b d q hpq

theorem direct_qPreserved (S : EditorState) (p : Pos) (b : Block) (d : Bool)
    (q : Pos) (hpq : q ≠ p) :
    qPreserved q S (placeSingleBlockGlobalDirect S p b d).2 := by
  have hnm : ∀ e ∈ [(p, b)], e.1 ≠ q := by
    intro e he
    simp only [List.mem_singleton] at he
    rw [he]
    exact fun h => hpq h.symm
  have hblk := placeBlocksGo_blocks_notmem S.remote [(p, b)] d q hnm
  obtain ⟨hpr, -, -⟩ := placeBlocksGo_oracle S.remote [(p, b)] d
  unfold placeSingleBlockGlobalDirect
  by_cases hn : pyIsnumeric ((placeBlocksGo S.remote [(p, b)] d).1.headD "") <;>
    simp only [hn, if_true, if_false] <;>
    exact ⟨readFallback_congr S _ q rfl rfl hblk, rfl, rfl, rfl, fun h => h,
      hpr, fun h => h⟩

theorem stageBuffered_decay (S : EditorState) (p : Pos) (b : Block)
    (d : Bool) : (placeSingleBlockGlobalBuffered S p b d).decay = S.decay := by
  obtain ⟨-, -, -, -, -, -, -, -, -, -, -, hfdec, -, -, -⟩ :=
    sendBufferedBlocks_fields S
  by_cases hdiff : d ≠ S.bufferDoBlockUpdates
  · simp only [placeSingleBlockGlobalBuffered]
    rw [if_pos hdiff]
    exact hfdec
  · by_cases hlim : S.bufferLimit ≤ S.buffer.length
    · simp only [placeSingleBlockGlobalBuffered]
      rw [if_neg hdiff, if_pos hlim]
      exact hfdec
    · simp only [placeSingleBlockGlobalBuffered]
      rw [if_neg hdiff, if_neg hlim]

theorem direct_decay (S : EditorState) (p : Pos) (b : Block) (d : Bool) :
    (placeSingleBlockGlobalDirect S p b d).2.decay = S.decay := by
  unfold placeSingleBlockGlobalDirect
  by_cases hn : pyIsnumeric ((placeBlocksGo S.remote [(p, b)] d).1.headD "")
  · rw [if_pos hn]
  · rw [if_neg hn]

theorem decayAfterPlace_props (S1 : EditorState) (pos : Pos) (q : Pos) :
    qPreserved q S1 (decayAfterPlace S1 pos) ∧
    (∀ r, r ≠ pos → (decayAfterPlace S1 pos).decay r = S1.decay r) ∧
    (∀ r, S1.decay r = true → (decayAfterPlace S1 pos).decay r = true) ∧
    ((decayAfterPlace S1 pos).decay pos = true → S1.decay pos = true ∨
      (∃ ws, S1.worldSlice = some ws ∧
        ws.rect.containsB (dropY pos) = true)) ∧
    (∀ ws, S1.worldSlice = some ws → ws.rect.containsB (dropY pos) = true →
      (decayAfterPlace S1 pos).decay pos = true) := by
  unfold decayAfterPlace
  rcases hws : S1.worldSlice with _ | ws
  · dsimp only
    refine ⟨qPreserved_refl q S1, fun r hr => rfl, fun r h => h,
      fun h => Or.inl h, ?_⟩
    intro ws' hws'
    exact absurd hws' (by simp)
  · dsimp only
    by_cases hcon : ws.rect.containsB (dropY pos)
    · rw [if_pos hcon]
      refine ⟨?_, ?_, ?_, ?_, ?_⟩
      · exact ⟨readFallback_eq_of S1 _ q rfl rfl rfl, rfl, rfl, hws.symm,
          fun h => h, rfl, fun h => h⟩
      · intro r hr
        show (if r = pos then true else S1.decay r) = S1.decay r
        rw [if_neg hr]
      · intro r h
        show (if r = pos then true else S1.decay r) = true
        by_cases hrp : r = pos
        · rw [if_pos hrp]
        · rw [if_neg hrp]
          exact h
      · intro _
        exact Or.inr ⟨ws, rfl, hcon⟩
      · intro ws' hws' hcon'
        show (if pos = pos then true else S1.decay pos) = true
        rw [if_pos rfl]
    · rw [if_neg hcon]
      refine ⟨qPreserved_refl q S1, fun r hr => rfl, fun r h => h,
        fun h => Or.inl h, ?_⟩
      intro ws' hws' hcon'
      rw [Option.some.injEq] at hws'
      rw [hws'] at hcon
      exact absurd hcon' hcon

theorem placeFinish_props (S : EditorState) (pos : Pos) (b : Block) (q : Pos)
    (hpq : q ≠ pos) :
    qPreserved q S (placeFinish S pos b) ∧
    (∀ r, r ≠ pos → (placeFinish S pos b).decay r = S.decay r) ∧
    (∀ r, S.decay r = true → (placeFinish S pos b).decay r = true) ∧
    ((placeFinish S pos b).decay pos = true → S.decay pos = true ∨
      (∃ ws, S.worldSlice = some ws ∧
        ws.rect.containsB (dropY pos) = true)) ∧
    (∀ ws, S.worldSlice = some ws → ws.rect.containsB (dropY pos) = true →
      (placeFinish S pos b).decay pos = true) := by
  unfold placeFinish
  set S1 := (if S.caching then
    { S with cache := cachePut S.cache S.cacheLimit pos b } else S) with hS1
  have hS1ws : S1.worldSlice = S.worldSlice := by
    rw [hS1]
    by_cases hc : S.caching
    · rw [if_pos hc]
    · rw [if_neg hc]
  have hS1dec : S1.decay = S.decay := by
    rw [hS1]
    by_cases hc : S.caching
    · rw [if_pos hc]
    · rw [if_neg hc]
  have hS1q : qPreserved q S S1 := by
    rw [hS1]
    by_cases hc : S.caching
    · rw [if_pos hc]
      exact ⟨readFallback_eq_of S _ q rfl rfl rfl, rfl, rfl, rfl,
        fun h => cacheFind_none_cachePut _ _ _ _ _ hpq h, rfl, fun h => h⟩
    · rw [if_neg hc]
      exact qPreserved_refl q S
  obtain ⟨d1, d2, d3, d4, d5⟩ := decayAfterPlace_props S1 pos q
  refine ⟨qPreserved_trans q S S1 _ hS1q d1, ?_, ?_, ?_, ?_⟩
  · intro r hr
    rw [d2 r hr, hS1dec]
  · intro r h
    exact d3 r (by rw [hS1dec]; exact h)
  · intro h
    rcases d4 h with h1 | ⟨ws, hws, hcon⟩
    · exact Or.inl (by rw [hS1dec] at h1; exact h1)
    · exact Or.inr ⟨ws, by rw [← hS1ws]; exact hws, hcon⟩
  · intro ws hws hcon
    exact d5 ws (by rw [hS1ws]; exact hws) hcon

theorem placeCore_props (S : EditorState) (pos : Pos) (b : Block)
    (dbu : Option Bool) (q : Pos) (hpq : q ≠ pos)
    (hok : ∀ r c d', pyIsnumeric (S.remote.placeResult r c d') = true)
    (hnd : (S.buffer.map (fun e => e.1)).Nodup) :
    qPreserved q S (placeCore S pos b dbu).state ∧
    (∀ r, r ≠ pos → (placeCore S pos b dbu).state.decay r = S.decay r) ∧
    (∀ r, S.decay r = true → (placeCore S pos b dbu).state.decay r = true) ∧
    ((placeCore S pos b dbu).state.decay pos = true → S.decay pos = true ∨
      ((placeCore S pos b dbu).success = true ∧
        (placeCore S pos b dbu).outcome.isPlacement = true)) ∧
    ((placeCore S pos b dbu).outcome.isPlacement = true →
      ∀ ws, S.worldSlice = some ws → ws.rect.containsB (dropY pos) = true →
        (placeCore S pos b dbu).state.decay pos = true) := by
  unfold placeCore
  by_cases hbuf : S.buffering
  · rw [if_pos hbuf]
    have hT := stageBuffered_qPreserved S pos b (dbu.getD S.doBlockUpdates) q
      hpq hbuf hok hnd
    have hTdec := stageBuffered_decay S pos b (dbu.getD S.doBlockUpdates)
    obtain ⟨f1, f2, f3, f4, f5⟩ := placeFinish_props
      (placeSingleBlockGlobalBuffered S pos b (dbu.getD S.doBlockUpdates))
      pos b q hpq
    refine ⟨qPreserved_trans q S _ _ hT f1, ?_, ?_, ?_, ?_⟩
    · intro r hr
      rw [f2 r hr, hTdec]
    · intro r h
      exact f3 r (by rw [hTdec]; exact h)
    · intro _
      exact Or.inr ⟨rfl, rfl⟩
    · intro _ ws hws hcon
      exact f5 ws (by rw [hT.2.2.2.1, hws]) hcon
  · rw [if_neg hbuf]
    have hT := direct_qPreserved S pos b (dbu.getD S.doBlockUpdates) q hpq
    have hTdec := direct_decay S pos b (dbu.getD S.doBlockUpdates)
    by_cases hr1 :
      (placeSingleBlockGlobalDirect S pos b (dbu.getD S.doBlockUpdates)).1
    · rw [if_pos hr1]
      obtain ⟨f1, f2, f3, f4, f5⟩ := placeFinish_props
        (placeSingleBlockGlobalDirect S pos b (dbu.getD S.doBlockUpdates)).2
        pos b q hpq
      refine ⟨qPreserved_trans q S _ _ hT f1, ?_, ?_, ?_, ?_⟩
      · intro r hr
        rw [f2 r hr, hTdec]
      · intro r h
        exact f3 r (by rw [hTdec]; exact h)
      · intro _
        exact Or.inr ⟨rfl, rfl⟩
      · intro _ ws hws hcon
        exact f5 ws (by rw [hT.2.2.2.1, hws]) hcon
    · rw [if_neg hr1]
      refine ⟨hT, fun r hr => by rw [hTdec], fun r h => by rw [hTdec]; exact h,
        fun h => Or.inl (by rw [hTdec] at h; exact h), ?_⟩
      intro h
      exact absurd h (by simp [PlaceOutcome.isPlacement])

theorem placeAfterReplace_props (S : EditorState) (pos : Pos) (block : Block)
    (dbu : Option Bool) (q : Pos) (hpq : q ≠ pos)
    (hok : ∀ r c d', pyIsnumeric (S.remote.placeResult r c d') = true)
    (hnd : (S.buffer.map (fun e => e.1)).Nodup) :
    qPreserved q S (placeAfterReplace S pos block dbu).state ∧
    (∀ r, r ≠ pos →
      (placeAfterReplace S pos block dbu).state.decay r = S.decay r) ∧
    (∀ r, S.decay r = true →
      (placeAfterReplace S pos block dbu).state.decay r = true) ∧
    ((placeAfterReplace S pos block dbu).state.decay pos = true →
      S.decay pos = true ∨
      ((placeAfterReplace S pos block dbu).success = true ∧
        (placeAfterReplace S pos block dbu).outcome.isPlacement = true)) ∧
    ((placeAfterReplace S pos block dbu).outcome.isPlacement = true →
      ∀ ws, S.worldSlice = some ws → ws.rect.containsB (dropY pos) = true →
        (placeAfterReplace S pos block dbu).state.decay pos = true) := by
  unfold placeAfterReplace
  by_cases hid : block.chooseId.id = ""
  · rw [if_pos hid]
    exact ⟨qPreserved_refl q S, fun r hr => rfl, fun r h => h,
      fun h => Or.inl h, fun h => absurd h (by simp [PlaceOutcome.isPlacement])⟩
  · rw [if_neg hid]
    by_cases hc : S.caching
    · rw [if_pos hc]
      have hR := getBlockGlobal_qPreserved S pos q hpq
      obtain ⟨-, -, hRbuf, -, -, -, -, -, hRws, hRdec, hRrem, -, -⟩ :=
        getBlockGlobal_state_fields S pos
      by_cases hsub : strContainsSubstr (getBlockGlobal S pos).block.id
        block.chooseId.id
      · rw [if_pos hsub]
        exact ⟨hR, fun r hr => by rw [hRdec], fun r h => by rw [hRdec]; exact h,
          fun h => Or.inl (by rw [hRdec] at h; exact h),
          fun h => absurd h (by simp [PlaceOutcome.isPlacement])⟩
      · rw [if_neg hsub]
        have hok' : ∀ r c d', pyIsnumeric
            ((getBlockGlobal S pos).state.remote.placeResult r c d') = true := by
          intro r c d'
          rw [hRrem]
          exact hok r c d'
        have hnd' : (((getBlockGlobal S pos).state.buffer.map
            (fun e => e.1)).Nodup) := by
          rw [hRbuf]
          exact hnd
        obtain ⟨c1, c2, c3, c4, c5⟩ := placeCore_props
          (getBlockGlobal S pos).state pos block.chooseId dbu q hpq hok' hnd'
        refine ⟨qPreserved_trans q S _ _ hR c1, ?_, ?_, ?_, ?_⟩
        · intro r hr
          rw [c2 r hr, hRdec]
        · intro r h
          exact c3 r (by rw [hRdec]; exact h)
        · intro h
          rcases c4 h with h1 | h2
          · exact Or.inl (by rw [hRdec] at h1; exact h1)
          · exact Or.inr h2
        · intro h ws hws hcon
          exact c5 h ws (by rw [hRws, hws]) hcon
    · rw [if_neg hc]
      exact placeCore_props S pos block.chooseId dbu q hpq hok hnd

theorem place_props (S : EditorState) (pos : Pos) (block : Block)
    (replace : Option (List String)) (dbu : Option Bool) (q : Pos)
    (hpq : q ≠ pos)
    (hok : ∀ r c d', pyIsnumeric (S.remote.placeResult r c d') = true)
    (hnd : (S.buffer.map (fun e => e.1)).Nodup) :
    qPreserved q S (placeSingleBlockGlobal S pos block replace dbu).state ∧
    (∀ r, r ≠ pos →
      (placeSingleBlockGlobal S pos block replace dbu).state.decay r
        = S.decay r) ∧
    (∀ r, S.decay r = true →
      (placeSingleBlockGlobal S pos block replace dbu).state.decay r = true) ∧
    ((placeSingleBlockGlobal S pos block replace dbu).state.decay pos = true →
      S.decay pos = true ∨
      ((placeSingleBlockGlobal S pos block replace dbu).success = true ∧
        (placeSingleBlockGlobal S pos block replace dbu).outcome.isPlacement
          = true)) ∧
    ((placeSingleBlockGlobal S pos block replace dbu).outcome.isPlacement
        = true →
      ∀ ws, S.worldSlice = some ws → ws.rect.containsB (dropY pos) = true →
        (placeSingleBlockGlobal S pos block replace dbu).state.decay pos
          = true) := by
  unfold placeSingleBlockGlobal
  rcases replace with _ | lst
  · exact placeAfterReplace_props S pos block dbu q hpq hok hnd
  · have hR := getBlockGlobal_qPreserved S pos q hpq
    obtain ⟨-, -, hRbuf, -, -, -, -, -, hRws, hRdec, hRrem, -, -⟩ :=
      getBlockGlobal_state_fields S pos
    by_cases hmr : matchesReplace (getBlockGlobal S pos).block lst
    · simp only [hmr, Bool.not_true, Bool.false_eq_true, if_false]
      have hok' : ∀ r c d', pyIsnumeric
          ((getBlockGlobal S pos).state.remote.placeResult r c d') = true := by
        intro r c d'
        rw [hRrem]
        exact hok r c d'
      have hnd' : (((getBlockGlobal S pos).state.buffer.map
          (fun e => e.1)).Nodup) := by
        rw [hRbuf]
        exact hnd
      obtain ⟨c1, c2, c3, c4, c5⟩ := placeAfterReplace_props
        (getBlockGlobal S pos).state pos block dbu q hpq hok' hnd'
      refine ⟨qPreserved_trans q S _ _ hR c1, ?_, ?_, ?_, ?_⟩
      · intro r hr
        rw [c2 r hr, hRdec]
      · intro r h
        exact c3 r (by rw [hRdec]; exact h)
      · intro h
        rcases c4 h with h1 | h2
        · exact Or.inl (by rw [hRdec] at h1; exact h1)
        · exact Or.inr h2
      · intro h ws hws hcon
        exact c5 h ws (by rw [hRws, hws]) hcon
    · simp only [hmr, Bool.not_false, if_true]
      exact ⟨hR, fun r hr => by rw [hRdec], fun r h => by rw [hRdec]; exact h,
        fun h => Or.inl (by rw [hRdec] at h; exact h),
        fun h => absurd h (by simp [PlaceOutcome.isPlacement])⟩

theorem foldl_parseStep_none (l : List Char) :
    l.foldl parseStep none = none := by
  induction l with
  | nil => rfl
  | cons c rest ih => simpa [parseStep] using ih

theorem foldl_parseStep_isSome (l : List Char) : ∀ n : Nat,
    (l.foldl parseStep (some n)).isSome = l.all Char.isDigit := by
  induction l with
  | nil => intro n; rfl
  | cons c rest ih =>
    intro n
    by_cases hc : c.isDigit
    · simp [parseStep, digitVal, hc, ih]
    · simp [parseStep, digitVal, hc, foldl_parseStep_none]

theorem pyIsnumeric_iff_parseDec (s : String) :
    pyIsnumeric s = true ↔ (parseDec s).isSome = true := by
  unfold pyIsnumeric parseDec
  by_cases he : s.data = []
  · simp [String.toList, he]
  · simp [String.toList, he, foldl_parseStep_isSome]

theorem responseWarnings_append (l₁ l₂ : List String) :
    responseWarnings (l₁ ++ l₂)
      = responseWarnings l₁ ++ responseWarnings l₂ := by
  induction l₁ with
  | nil => rfl
  | cons t rest ih =>
    by_cases h : pyIsnumeric t <;> simp [responseWarnings, h, ih]

theorem responseWarnings_length (l : List String) :
    (responseWarnings l).length
      = (l.filter (fun s => !(pyIsnumeric s))).length := by
  induction l with
  | nil => rfl
  | cons t rest ih =>
    by_cases h : pyIsnumeric t <;> simp [responseWarnings, h, ih]

theorem responseWarnings_nil_iff (l : List String) :
    responseWarnings l = [] ↔ ∀ s ∈ l, pyIsnumeric s = true := by
  induction l with
  | nil => simp [responseWarnings]
  | cons t rest ih =>
    by_cases h : pyIsnumeric t <;> simp [responseWarnings, h, ih]

/-!  Claim theorems.  -/

/-- C1: the snapshot refresh operation `updateWorldSlice` is supposed to
replace the cached Snapshot with a brand-new one and reset the Decay Mask;
the code instead calls `loadWorldSlice(self._worldSlice.rect)` with the
`cache` parameter left at its default `False`, so the returned editor state
— including the cached snapshot and the Decay Mask — is exactly the input
state: nothing is replaced and nothing is reset.  (Replacement and the
all-false mask reset happen only on the `cache=True` path of
`loadWorldSlice`, as the second conjunct records.) -/
theorem updateWorldSlice_leaves_state_unchanged (S : EditorState)
    (ws : WorldSliceE) (h : S.worldSlice = some ws) :
    updateWorldSlice S = some (S, S.remote.fetchSlice ws.rect) ∧
    (∀ r : Rect,
      (loadWorldSlice S r true).1.worldSlice = some (S.remote.fetchSlice r) ∧
      (loadWorldSlice S r true).1.decay = fun _ => false) := by
  constructor
  · unfold updateWorldSlice
    rw [h]
    unfold loadWorldSlice
    simp
  · intro r
    unfold loadWorldSlice
    simp

/-- C1 witness: on a concrete editor with a cached snapshot and a decayed
cell, `updateWorldSlice` returns the state unchanged — the old snapshot is
still the cached one and the decayed cell is still decayed. -/
theorem updateWorldSlice_leaves_state_unchanged_check :
    updateWorldSlice s1State = some (s1State, s1State.remote.fetchSlice wsStone.rect) ∧
    (∀ r : Rect,
      (loadWorldSlice s1State r true).1.worldSlice
        = some (s1State.remote.fetchSlice r) ∧
      (loadWorldSlice s1State r true).1.decay = fun _ => false) :=
  updateWorldSlice_leaves_state_unchanged s1State wsStone rfl

/-- C1 auxiliary record for the failing input: in `s1State` the Decay Mask
cell at (1,2,3) is set, and it is still set in the state `updateWorldSlice`
returns. -/
theorem updateWorldSlice_decay_survives :
    s1State.decay (1, 2, 3) = true ∧
    ((updateWorldSlice s1State).map
      (fun r => r.1.decay (1, 2, 3))) = some true := by
  constructor
  · rfl
  · rfl

/-- C6: the heightmap assembly is claimed to write each decoded
(bias-corrected) chunk value into its region-relative XZ cell of a
region-sized array and to silently drop every cell outside the requested
rectangle.  On the 15×15 rectangle from (1,1) to (16,16) over one chunk
whose packed entry at `(cx, cz)` decodes to `cz * 16 + cx`, the code instead
allocates a 16×16 array, and the chunk cell `(0, 0)` — whose XZ column
(0,0) lies outside the rectangle and should have been dropped — is written
to the array cell (15,15) through numpy negative-index wraparound
(region-relative index -1 wraps to 15); interior cells such as region (0,0)
(= chunk cell (1,1), value 17 - 64) are translated correctly. -/
theorem buildHeightmap_wraparound_eval :
    hm6.length = 16 ∧ (hm6.getD 0 []).length = 16 ∧
    (hm6.getD 15 []).getD 15 0 = (0 * 16 + 0) - 64 ∧
    (hm6.getD 0 []).getD 0 0 = (1 * 16 + 1) - 64 ∧
    (hm6.getD 14 []).getD 14 0 = (15 * 16 + 15) - 64 := by
  set_option maxRecDepth 40000 in
  refine ⟨?_, ?_, ?_, ?_, ?_⟩ <;> rw [hm6_split] <;> decide

/-- C8: for a palette of size `p ≥ 1` the decoder bit width is
`max(minWidth, ceil(log2 p))` with `minWidth = 4` for block palettes and
`minWidth = 1` for biome palettes (`Nat.clog 2` is the ceiling base-2
logarithm): the width is at least `minWidth`, `2 ^ width` covers the
palette, the width is minimal among such (it equals `minWidth` or one bit
fewer would not cover the palette), and a palette of size 1 still gets
exactly `minWidth`. -/
theorem paletteBitsSpec (p : Nat) (hp : 1 ≤ p) :
    blockStatesBits p = max 4 (Nat.clog 2 p) ∧
    biomesBits p = max 1 (Nat.clog 2 p) ∧
    4 ≤ blockStatesBits p ∧ p ≤ 2 ^ blockStatesBits p ∧
    (blockStatesBits p = 4 ∨ 2 ^ (blockStatesBits p - 1) < p) ∧
    1 ≤ biomesBits p ∧ p ≤ 2 ^ biomesBits p ∧
    (biomesBits p = 1 ∨ 2 ^ (biomesBits p - 1) < p) ∧
    blockStatesBits 1 = 4 ∧ biomesBits 1 = 1 := by
  have h2 : (1 : Nat) < 2 := by norm_num
  have hle : p ≤ 2 ^ Nat.clog 2 p := Nat.le_pow_clog h2 p
  have hone : Nat.clog 2 1 = 0 := Nat.clog_one_right 2
  refine ⟨rfl, rfl, le_max_left _ _, ?_, ?_, le_max_left _ _, ?_, ?_, ?_, ?_⟩
  · exact hle.trans (Nat.pow_le_pow_right (by norm_num) (le_max_right _ _))
  · rcases le_or_lt (Nat.clog 2 p) 4 with h | h
    · exact Or.inl (max_eq_left h)
    · refine Or.inr ?_
      have hmax : max 4 (Nat.clog 2 p) = Nat.clog 2 p := max_eq_right h.le
      have hp1 : 1 < p := by
        by_contra hc
        push_neg at hc
        rw [Nat.clog_of_right_le_one hc] at h
        omega
      have := Nat.pow_pred_clog_lt_self h2 hp1
      simpa [blockStatesBits, hmax, Nat.pred_eq_sub_one] using this
  · exact hle.trans (Nat.pow_le_pow_right (by norm_num) (le_max_right _ _))
  · rcases le_or_lt (Nat.clog 2 p) 1 with h | h
    · exact Or.inl (max_eq_left h)
    · refine Or.inr ?_
      have hmax : max 1 (Nat.clog 2 p) = Nat.clog 2 p := max_eq_right h.le
      have hp1 : 1 < p := by
        by_contra hc
        push_neg at hc
        rw [Nat.clog_of_right_le_one hc] at h
        omega
      have := Nat.pow_pred_clog_lt_self h2 hp1
      simpa [biomesBits, hmax, Nat.pred_eq_sub_one] using this
  · simp [blockStatesBits, hone]
  · simp [biomesBits, hone]

/-- C8 witness: the bit-width contract instantiated at palette size 5
(block width 4, biome width 3). -/
theorem paletteBitsSpec_check :
    blockStatesBits 5 = max 4 (Nat.clog 2 5) ∧
    biomesBits 5 = max 1 (Nat.clog 2 5) ∧
    4 ≤ blockStatesBits 5 ∧ 5 ≤ 2 ^ blockStatesBits 5 ∧
    (blockStatesBits 5 = 4 ∨ 2 ^ (blockStatesBits 5 - 1) < 5) ∧
    1 ≤ biomesBits 5 ∧ 5 ≤ 2 ^ biomesBits 5 ∧
    (biomesBits 5 = 1 ∨ 2 ^ (biomesBits 5 - 1) < 5) ∧
    blockStatesBits 1 = 4 ∧ biomesBits 1 = 1 :=
  paletteBitsSpec 5 (by norm_num)

/-- C9: a coordinate whose chunk section is absent from the section
collection gets `none` ("no data", distinct from any air palette entry)
from the compound-level lookup, and the identifier-level read resolves that
to the `minecraft:void_air` sentinel instead of failing; moreover the
constructor omits exactly the raw sections without `block_states` data, so
every cached section comes from a raw section that had a palette. -/
theorem omittedSection_reads_void_air (ws : WorldSliceL) (x y z : Int)
    (h : findSection ws.sections (Int.fdiv x 16 - ws.chunkRect.ox)
      (Int.fdiv y 16) (Int.fdiv z 16 - ws.chunkRect.oz) = none) :
    getBlockCompoundAt ws x y z = none ∧
    getBlockAt ws x y z = "minecraft:void_air" ∧
    (∀ (cx cz : Int) (c : RawChunk) (cs : CachedSection),
      cs ∈ buildChunkSections cx cz c →
      ∃ raw ∈ c.sections, raw.blockStates.isSome = true ∧ cs.y = raw.y) := by
  have hc : getBlockCompoundAt ws x y z = none := by
    rw [getBlockCompoundAt]
    rw [h]
  refine ⟨hc, ?_, ?_⟩
  · rw [getBlockAt, hc]
  · intro cx cz c cs hcs
    obtain ⟨raw, hraw, hval⟩ := List.mem_filterMap.mp hcs
    refine ⟨raw, hraw, ?_, ?_⟩
    · rcases hh : raw.blockStates with _ | pd
      · rw [hh] at hval
        simp at hval
      · simp
    · rcases hh : raw.blockStates with _ | pd
      · rw [hh] at hval
        simp at hval
      · rw [hh] at hval
        simp only [Option.some.injEq] at hval
        rw [← hval]

/-- C2 counterexample: an editor with buffering enabled, buffer limit
`L = 1` and an empty buffer; a single staging call makes the buffer's size
reach `L`, yet — contrary to the claim — no automatic flush is triggered by
that call and the buffer is not empty afterwards (it holds the staged
write). -/
theorem bufferAutoFlush_counterexample :
    s2State.bufferLimit = 1 ∧ s2State.buffer = [] ∧
    (placeSingleBlockGlobalBuffered s2State (0, 0, 0) ⟨"minecraft:dirt"⟩
      true).flushCount = 0 ∧
    (placeSingleBlockGlobalBuffered s2State (0, 0, 0) ⟨"minecraft:dirt"⟩
      true).buffer ≠ [] := by
  refine ⟨rfl, rfl, rfl, ?_⟩
  decide

/-- C2 amended: staging `L + 1` writes one at a time (distinct positions,
same effective `doBlockUpdates` flag, starting from an empty buffer with
buffer limit `L ≥ 1`) triggers exactly one automatic flush, which happens
at the start of the `(L+1)`-th staging call — the first call made after the
buffer's size has reached `L` — and immediately after that call the buffer
holds exactly the newly staged write (the first `L` stagings trigger no
flush and leave all `L` writes pending). -/
theorem bufferAutoFlush_amended (S : EditorState) (ps : List Pos) (b : Block)
    (d : Bool) (L : Nat) (hL : S.bufferLimit = L) (hL1 : 1 ≤ L)
    (hbuf : S.buffer = []) (hd : S.bufferDoBlockUpdates = d)
    (hnd : ps.Nodup) (hlen : ps.length = L + 1) :
    (stageMany S (ps.take L) b d).flushCount = S.flushCount ∧
    (stageMany S (ps.take L) b d).buffer
      = (ps.take L).map (fun p => (p, b, d)) ∧
    (stageMany S ps b d).flushCount = S.flushCount + 1 ∧
    (stageMany S ps b d).buffer = [(ps.getLastD (0, 0, 0), b, d)] := by
  have hne : ps ≠ [] := by
    intro h
    rw [h] at hlen
    simp at hlen
  have htake : ps.take L = ps.dropLast := by
    rw [List.dropLast_eq_take, hlen]
    simp
  have hdlen : ps.dropLast.length = L := by
    simp [List.length_dropLast, hlen]
  have hfill : stageMany S ps.dropLast b d
      = { S with buffer := S.buffer ++ ps.dropLast.map (fun p => (p, b, d)) } := by
    refine stageMany_fill b d ps.dropLast S hd ?_
      (hnd.sublist (List.dropLast_sublist ps)) ?_
    · intro q hq
      rw [hbuf]
      rfl
    · rw [hbuf, hL]
      simp [hdlen]
  have hdecomp : ps.dropLast ++ [ps.getLast hne] = ps :=
    List.dropLast_append_getLast hne
  have hstage : stageMany S ps b d
      = placeSingleBlockGlobalBuffered (stageMany S ps.dropLast b d)
        (ps.getLast hne) b d := by
    conv_lhs => rw [← hdecomp]
    simp [stageMany, List.foldl_append]
  have hlast : ps.getLastD (0, 0, 0) = ps.getLast hne := by
    conv_lhs => rw [← hdecomp]
    simp
  have hflag : ¬(d ≠ (stageMany S ps.dropLast b d).bufferDoBlockUpdates) := by
    rw [hfill]
    simp [hd]
  have hlim : (stageMany S ps.dropLast b d).bufferLimit
      ≤ (stageMany S ps.dropLast b d).buffer.length := by
    rw [hfill]
    show S.bufferLimit ≤ (S.buffer ++ ps.dropLast.map (fun p => (p, b, d))).length
    rw [hbuf, hL]
    simp only [List.nil_append, List.length_map]
    rw [hdlen]
  obtain ⟨hfb, _, hfc, _⟩ := sendBufferedBlocks_fields (stageMany S ps.dropLast b d)
  have hfinal : stageMany S ps b d
      = { sendBufferedBlocks (stageMany S ps.dropLast b d) with
          buffer := bufferInsert
            (sendBufferedBlocks (stageMany S ps.dropLast b d)).buffer
            (ps.getLast hne) b d } := by
    rw [hstage]
    simp only [placeSingleBlockGlobalBuffered]
    rw [if_neg hflag, if_pos hlim]
  refine ⟨?_, ?_, ?_, ?_⟩
  · rw [htake, hfill]
  · rw [htake, hfill, hbuf]
    simp
  · rw [hfinal]
    show (sendBufferedBlocks (stageMany S ps.dropLast b d)).flushCount
      = S.flushCount + 1
    rw [hfc, hfill]
  · rw [hfinal, hlast]
    show bufferInsert (sendBufferedBlocks (stageMany S ps.dropLast b d)).buffer
      (ps.getLast hne) b d = [(ps.getLast hne, b, d)]
    rw [hfb]
    rfl

/-- C2 amended witness: the amended auto-flush behavior at buffer limit 1
with two staged writes. -/
theorem bufferAutoFlush_amended_check :
    (stageMany s2State ([((0 : Int), (0 : Int), (0 : Int)),
      (1, 0, 0)].take 1) ⟨"minecraft:dirt"⟩ true).flushCount
      = s2State.flushCount ∧
    (stageMany s2State ([((0 : Int), (0 : Int), (0 : Int)), (1, 0, 0)].take 1)
      ⟨"minecraft:dirt"⟩ true).buffer
      = ([((0 : Int), (0 : Int), (0 : Int)), (1, 0, 0)].take 1).map
        (fun p => (p, ⟨"minecraft:dirt"⟩, true)) ∧
    (stageMany s2State [((0 : Int), (0 : Int), (0 : Int)), (1, 0, 0)]
      ⟨"minecraft:dirt"⟩ true).flushCount = s2State.flushCount + 1 ∧
    (stageMany s2State [((0 : Int), (0 : Int), (0 : Int)), (1, 0, 0)]
      ⟨"minecraft:dirt"⟩ true).buffer
      = [([((0 : Int), (0 : Int), (0 : Int)), (1, 0, 0)].getLastD (0, 0, 0),
          ⟨"minecraft:dirt"⟩, true)] :=
  bufferAutoFlush_amended s2State [(0, 0, 0), (1, 0, 0)] ⟨"minecraft:dirt"⟩
    true 1 rfl (by decide) rfl rfl (by decide) rfl

/-- C3 counterexample: an editor with caching enabled and an empty Lookup
Cache; a write at (0,0,0) with a replace filter that excludes the voxel
currently there reports success, but the Lookup Cache is changed: the read
performed for the filter check stores the fetched current voxel into it
(`editor.py` lines 266-267). -/
theorem replaceFilterNoop_counterexample :
    s3State.caching = true ∧ s3State.cache = [] ∧
    (placeSingleBlockGlobal s3State (0, 0, 0) ⟨"minecraft:dirt"⟩
      (some ["minecraft:grass_block"]) none).success = true ∧
    (placeSingleBlockGlobal s3State (0, 0, 0) ⟨"minecraft:dirt"⟩
      (some ["minecraft:grass_block"]) none).state.cache ≠ s3State.cache := by
  refine ⟨rfl, rfl, rfl, ?_⟩
  decide

/-- C3 amended: a write whose replace filter excludes the current voxel at
`pos` reports success and aborts before staging or sending anything: its
entire effect on the editor is that of the single read performed for the
filter check — the Write Buffer, the remote store, the flush count, the
command buffer, the warnings, the Decay Mask and the cached snapshot are
all unchanged, and only the Lookup Cache may change, exactly as a read at
`pos` changes it (storing the voxel read during the check, promoting its
recency, and possibly evicting the least-recently-used entry). -/
theorem replaceFilterNoop_amended (S : EditorState) (pos : Pos) (blk : Block)
    (lst : List String) (dbu : Option Bool)
    (h : matchesReplace (getBlockGlobal S pos).block lst = false) :
    (placeSingleBlockGlobal S pos blk (some lst) dbu).success = true ∧
    (placeSingleBlockGlobal S pos blk (some lst) dbu).outcome
      = PlaceOutcome.skippedReplace ∧
    (placeSingleBlockGlobal S pos blk (some lst) dbu).state
      = (getBlockGlobal S pos).state ∧
    (placeSingleBlockGlobal S pos blk (some lst) dbu).state.buffer
      = S.buffer ∧
    (placeSingleBlockGlobal S pos blk (some lst) dbu).state.remote
      = S.remote ∧
    (placeSingleBlockGlobal S pos blk (some lst) dbu).state.flushCount
      = S.flushCount ∧
    (placeSingleBlockGlobal S pos blk (some lst) dbu).state.commandBuffer
      = S.commandBuffer ∧
    (placeSingleBlockGlobal S pos blk (some lst) dbu).state.warnings
      = S.warnings ∧
    (placeSingleBlockGlobal S pos blk (some lst) dbu).state.decay
      = S.decay ∧
    (placeSingleBlockGlobal S pos blk (some lst) dbu).state.worldSlice
      = S.worldSlice := by
  have hplace : placeSingleBlockGlobal S pos blk (some lst) dbu
      = ⟨true, .skippedReplace, (getBlockGlobal S pos).state⟩ := by
    simp only [placeSingleBlockGlobal]
    rw [h]
    rfl
  obtain ⟨-, -, hb, hcmd, -, -, -, -, hws, hdec, hrem, hfc, hwarn⟩ :=
    getBlockGlobal_state_fields S pos
  rw [hplace]
  exact ⟨rfl, rfl, rfl, hb, hrem, hfc, hcmd, hwarn, hdec, hws⟩

/-- C3 amended witness: the no-op write at (0,0,0) with filter
`["minecraft:grass_block"]` over the all-stone remote store: success is
reported and everything except the Lookup Cache is unchanged. -/
theorem replaceFilterNoop_amended_check :
    (placeSingleBlockGlobal s3State (0, 0, 0) ⟨"minecraft:dirt"⟩
      (some ["minecraft:grass_block"]) none).success = true ∧
    (placeSingleBlockGlobal s3State (0, 0, 0) ⟨"minecraft:dirt"⟩
      (some ["minecraft:grass_block"]) none).outcome
      = PlaceOutcome.skippedReplace ∧
    (placeSingleBlockGlobal s3State (0, 0, 0) ⟨"minecraft:dirt"⟩
      (some ["minecraft:grass_block"]) none).state
      = (getBlockGlobal s3State (0, 0, 0)).state ∧
    (placeSingleBlockGlobal s3State (0, 0, 0) ⟨"minecraft:dirt"⟩
      (some ["minecraft:grass_block"]) none).state.buffer = s3State.buffer ∧
    (placeSingleBlockGlobal s3State (0, 0, 0) ⟨"minecraft:dirt"⟩
      (some ["minecraft:grass_block"]) none).state.remote = s3State.remote ∧
    (placeSingleBlockGlobal s3State (0, 0, 0) ⟨"minecraft:dirt"⟩
      (some ["minecraft:grass_block"]) none).state.flushCount
      = s3State.flushCount ∧
    (placeSingleBlockGlobal s3State (0, 0, 0) ⟨"minecraft:dirt"⟩
      (some ["minecraft:grass_block"]) none).state.commandBuffer
      = s3State.commandBuffer ∧
    (placeSingleBlockGlobal s3State (0, 0, 0) ⟨"minecraft:dirt"⟩
      (some ["minecraft:grass_block"]) none).state.warnings
      = s3State.warnings ∧
    (placeSingleBlockGlobal s3State (0, 0, 0) ⟨"minecraft:dirt"⟩
      (some ["minecraft:grass_block"]) none).state.decay = s3State.decay ∧
    (placeSingleBlockGlobal s3State (0, 0, 0) ⟨"minecraft:dirt"⟩
      (some ["minecraft:grass_block"]) none).state.worldSlice
      = s3State.worldSlice :=
  replaceFilterNoop_amended s3State (0, 0, 0) ⟨"minecraft:dirt"⟩
    ["minecraft:grass_block"] none (by decide)

/-- C7: a server result token is treated as success iff it is syntactically
a non-negative decimal integer (`isnumeric`, characterized by the
independent parser `parseDec`); any other token only yields a warning line:
the response loops are total functions that process every token — warnings
over a concatenation split (no abort on failure), there is exactly one
warning per non-success token, and no warning at all iff every token is a
success; the single-block direct path returns `False` (not an exception)
exactly when its token is not a success token. -/
theorem resultTokenContract (t : String) (l₁ l₂ : List String)
    (S : EditorState) (p : Pos) (b : Block) (d : Bool) :
    (pyIsnumeric t = true ↔ (parseDec t).isSome = true) ∧
    responseWarnings (l₁ ++ l₂) = responseWarnings l₁ ++ responseWarnings l₂ ∧
    (responseWarnings l₁).length
      = (l₁.filter (fun s => !(pyIsnumeric s))).length ∧
    (responseWarnings l₁ = [] ↔ ∀ s ∈ l₁, pyIsnumeric s = true) ∧
    (placeSingleBlockGlobalDirect S p b d).1
      = pyIsnumeric (S.remote.placeResult p b d) := by
  refine ⟨pyIsnumeric_iff_parseDec t, responseWarnings_append l₁ l₂,
    responseWarnings_length l₁, responseWarnings_nil_iff l₁, ?_⟩
  unfold placeSingleBlockGlobalDirect placeBlocksGo
  by_cases h : pyIsnumeric (S.remote.placeResult p b d) <;> simp [h]

/-- C10: staging a buffered placement with effective flag `d` always leaves
the buffer's flag equal to `d`; if `d` differs from the flag of the blocks
already in the buffer, the buffer is flushed first (one flush, before the
new block is staged) and afterwards the buffer holds exactly the new entry
staged under `d`; consequently the invariant "every pending entry was
staged under the buffer's current `doBlockUpdates` flag" is preserved by
every staging call, so a flushed batch is always transmitted with one
uniform flag (`sendBufferedBlocks` passes the single
`_bufferDoBlockUpdates` value for the whole batch). -/
theorem bufferFlagUniform (S : EditorState) (p : Pos) (b : Block) (d : Bool) :
    (placeSingleBlockGlobalBuffered S p b d).bufferDoBlockUpdates = d ∧
    (d ≠ S.bufferDoBlockUpdates →
      (placeSingleBlockGlobalBuffered S p b d).buffer = [(p, b, d)] ∧
      (placeSingleBlockGlobalBuffered S p b d).flushCount
        = S.flushCount + 1) ∧
    (bufferUniform S →
      bufferUniform (placeSingleBlockGlobalBuffered S p b d)) := by
  obtain ⟨hfb, -, hfc, -, -, -, -, -, -, hfd, -, -, -, -, -⟩ :=
    sendBufferedBlocks_fields S
  by_cases hd : d = S.bufferDoBlockUpdates
  · have hne : ¬(d ≠ S.bufferDoBlockUpdates) := by simp [hd]
    by_cases hlim : S.bufferLimit ≤ S.buffer.length
    · have hstep : placeSingleBlockGlobalBuffered S p b d
          = { sendBufferedBlocks S with
              buffer := bufferInsert (sendBufferedBlocks S).buffer p b d } := by
        simp only [placeSingleBlockGlobalBuffered]
        rw [if_neg hne, if_pos hlim]
      rw [hstep]
      refine ⟨?_, ?_, ?_⟩
      · show (sendBufferedBlocks S).bufferDoBlockUpdates = d
        rw [hfd, hd]
      · intro hco
        exact absurd hd hco
      · intro _ e he
        show e.2.2 = (sendBufferedBlocks S).bufferDoBlockUpdates
        rw [hfd, ← hd]
        replace he : e ∈ bufferInsert (sendBufferedBlocks S).buffer p b d := he
        rw [hfb] at he
        simp only [bufferInsert, List.mem_singleton] at he
        rw [he]
    · have hstep : placeSingleBlockGlobalBuffered S p b d
          = { S with buffer := bufferInsert S.buffer p b d } := by
        simp only [placeSingleBlockGlobalBuffered]
        rw [if_neg hne, if_neg hlim]
      rw [hstep]
      refine ⟨?_, ?_, ?_⟩
      · show S.bufferDoBlockUpdates = d
        exact hd.symm
      · intro hco
        exact absurd hd hco
      · intro hU e he
        show e.2.2 = S.bufferDoBlockUpdates
        replace he : e ∈ bufferInsert S.buffer p b d := he
        rcases bufferInsert_mem _ _ _ _ e he with h1 | h2
        · rw [h1, ← hd]
        · exact hU e h2
  · have hne : d ≠ S.bufferDoBlockUpdates := hd
    have hstep : placeSingleBlockGlobalBuffered S p b d
        = { { sendBufferedBlocks S with bufferDoBlockUpdates := d } with
            buffer := bufferInsert (sendBufferedBlocks S).buffer p b d } := by
      simp only [placeSingleBlockGlobalBuffered]
      rw [if_pos hne]
    rw [hstep]
    refine ⟨rfl, ?_, ?_⟩
    · intro _
      constructor
      · show bufferInsert (sendBufferedBlocks S).buffer p b d = [(p, b, d)]
        rw [hfb]
        rfl
      · exact hfc
    · intro _ e he
      show e.2.2 = d
      replace he : e ∈ bufferInsert (sendBufferedBlocks S).buffer p b d := he
      rw [hfb] at he
      simp only [bufferInsert, List.mem_singleton] at he
      rw [he]

/-- C10 witness: a staging call whose effective flag differs from the
buffer's flag on a concrete editor holding one pending write staged under
the old flag: the buffer is flushed first, the flag is updated, and the
buffer ends up holding exactly the new entry. -/
theorem bufferFlagUniform_check :
    (placeSingleBlockGlobalBuffered s2State ((2 : Int), (0 : Int), (0 : Int))
      ⟨"minecraft:dirt"⟩ false).bufferDoBlockUpdates = false ∧
    (false ≠ s2State.bufferDoBlockUpdates →
      (placeSingleBlockGlobalBuffered s2State ((2 : Int), (0 : Int), (0 : Int))
        ⟨"minecraft:dirt"⟩ false).buffer
        = [(((2 : Int), (0 : Int), (0 : Int)), ⟨"minecraft:dirt"⟩, false)] ∧
      (placeSingleBlockGlobalBuffered s2State ((2 : Int), (0 : Int), (0 : Int))
        ⟨"minecraft:dirt"⟩ false).flushCount = s2State.flushCount + 1) ∧
    (bufferUniform s2State →
      bufferUniform (placeSingleBlockGlobalBuffered s2State
        ((2 : Int), (0 : Int), (0 : Int)) ⟨"minecraft:dirt"⟩ false)) :=
  bufferFlagUniform s2State (2, 0, 0) ⟨"minecraft:dirt"⟩ false

/-- C4 counterexample: an editor with caching enabled, cache limit 1, the
cache holding a gold block for the out-of-region position `q4Pos`, the
all-stone snapshot `wsStone` cached, and an all-iron remote store whose
placements all succeed.  A single write at the in-region position `p4Pos`
reports success, yet a read at `q4Pos` — a position outside the snapshot's
region — returns a different block than before the write (gold from the
cache before; iron from the network after, the gold entry having been
evicted by the cache insertions the write performs), refuting the claim
that reads outside the region return the same result regardless of writes
inside the region. -/
theorem decayMask_outside_read_counterexample :
    wsStone.rect.containsB (dropY p4Pos) = true ∧
    wsStone.rect.containsB (dropY q4Pos) = false ∧
    s4State.worldSlice = some wsStone ∧
    (∀ r c d', pyIsnumeric (s4State.remote.placeResult r c d') = true) ∧
    (placeSingleBlockGlobal s4State p4Pos ⟨"minecraft:dirt"⟩ none
      none).success = true ∧
    (getBlockGlobal (placeSingleBlockGlobal s4State p4Pos ⟨"minecraft:dirt"⟩
      none none).state q4Pos).block ≠ (getBlockGlobal s4State q4Pos).block := by
  refine ⟨rfl, rfl, rfl, fun r c d' => rfl, rfl, ?_⟩
  decide

/-- C4 (amended): for an editor with a cached Snapshot over region R, a
write at `p ∈ R` (through `_placeSingleBlockGlobal`, with any filter and
flag arguments): (a) only sets Decay Mask cells — every set cell stays set,
cells other than `p` are unchanged, and `p`'s cell only becomes newly set
when the write reported success and actually staged or sent a placement;
(b) if the write staged or sent a placement, a subsequent read at `p` does
not answer from the Snapshot; (c) a read at a position `q ∉ R` that is not
answered by the Lookup Cache (no cache entry for `q`) returns the same
block before and after the write, provided the remote store applies every
transmitted placement (all result tokens are successes); and the
preconditions of (c) — snapshot, `q`'s cache absence, the placement oracle
and buffer well-formedness — are re-established, so the conclusion iterates
over any sequence of such writes. -/
theorem decayMaskCorrectness (S : EditorState) (p q : Pos) (blk : Block)
    (repl : Option (List String)) (dbu : Option Bool) (ws : WorldSliceE)
    (hws : S.worldSlice = some ws)
    (hp : ws.rect.containsB (dropY p) = true)
    (hq : ws.rect.containsB (dropY q) = false)
    (hqc : cacheFind S.cache q = none)
    (hok : ∀ r c d', pyIsnumeric (S.remote.placeResult r c d') = true)
    (hnd : (S.buffer.map (fun e => e.1)).Nodup) :
    (∀ r, S.decay r = true →
      (placeSingleBlockGlobal S p blk repl dbu).state.decay r = true) ∧
    (∀ r, r ≠ p →
      (placeSingleBlockGlobal S p blk repl dbu).state.decay r = S.decay r) ∧
    ((placeSingleBlockGlobal S p blk repl dbu).state.decay p = true →
      S.decay p = true ∨
      ((placeSingleBlockGlobal S p blk repl dbu).success = true ∧
        (placeSingleBlockGlobal S p blk repl dbu).outcome.isPlacement
          = true)) ∧
    ((placeSingleBlockGlobal S p blk repl dbu).outcome.isPlacement = true →
      (getBlockGlobal (placeSingleBlockGlobal S p blk repl dbu).state p).source
        ≠ ReadSource.sliceHit) ∧
    ((getBlockGlobal (placeSingleBlockGlobal S p blk repl dbu).state q).block
      = (getBlockGlobal S q).block) ∧
    ((placeSingleBlockGlobal S p blk repl dbu).state.worldSlice = some ws) ∧
    (cacheFind (placeSingleBlockGlobal S p blk repl dbu).state.cache q
      = none) ∧
    ((placeSingleBlockGlobal S p blk repl dbu).state.remote.placeResult
      = S.remote.placeResult) ∧
    (((placeSingleBlockGlobal S p blk repl dbu).state.buffer.map
      (fun e => e.1)).Nodup) := by
  have hpq : q ≠ p := q_ne_p_of_containsB ws p q hp hq
  obtain ⟨hQ, h2, h3, h4, h5⟩ := place_props S p blk repl dbu q hpq hok hnd
  obtain ⟨q1, q2, q3, q4, q5, q6, q7⟩ := hQ
  have hTws : (placeSingleBlockGlobal S p blk repl dbu).state.worldSlice
      = some ws := by rw [q4, hws]
  have hTqc := q5 hqc
  refine ⟨h3, h2, h4, ?_, ?_, hTws, hTqc, q6, q7 hnd⟩
  · intro h
    exact getBlockGlobal_source_not_slice _ p (h5 h ws hws hp)
  · rw [getBlockGlobal_block_outside _ q ws hTws hq hTqc,
      getBlockGlobal_block_outside S q ws hws hq hqc, q1]

/-- C4 amended witness: the amended decay/frame properties at a concrete
editor with the `wsStone` snapshot cached, caching enabled with an empty
cache, and the always-succeeding all-stone remote, for a dirt write at
`p4Pos` and reads at `q4Pos`. -/
theorem decayMaskCorrectness_check :
    (∀ r, s4WitState.decay r = true →
      (placeSingleBlockGlobal s4WitState p4Pos ⟨"minecraft:dirt"⟩ none
        none).state.decay r = true) ∧
    (∀ r, r ≠ p4Pos →
      (placeSingleBlockGlobal s4WitState p4Pos ⟨"minecraft:dirt"⟩ none
        none).state.decay r = s4WitState.decay r) ∧
    ((placeSingleBlockGlobal s4WitState p4Pos ⟨"minecraft:dirt"⟩ none
        none).state.decay p4Pos = true →
      s4WitState.decay p4Pos = true ∨
      ((placeSingleBlockGlobal s4WitState p4Pos ⟨"minecraft:dirt"⟩ none
          none).success = true ∧
        (placeSingleBlockGlobal s4WitState p4Pos ⟨"minecraft:dirt"⟩ none
          none).outcome.isPlacement = true)) ∧
    ((placeSingleBlockGlobal s4WitState p4Pos ⟨"minecraft:dirt"⟩ none
        none).outcome.isPlacement = true →
      (getBlockGlobal (placeSingleBlockGlobal s4WitState p4Pos
        ⟨"minecraft:dirt"⟩ none none).state p4Pos).source
        ≠ ReadSource.sliceHit) ∧
    ((getBlockGlobal (placeSingleBlockGlobal s4WitState p4Pos
      ⟨"minecraft:dirt"⟩ none none).state q4Pos).block
      = (getBlockGlobal s4WitState q4Pos).block) ∧
    ((placeSingleBlockGlobal s4WitState p4Pos ⟨"minecraft:dirt"⟩ none
      none).state.worldSlice = some wsStone) ∧
    (cacheFind (placeSingleBlockGlobal s4WitState p4Pos ⟨"minecraft:dirt"⟩
      none none).state.cache q4Pos = none) ∧
    ((placeSingleBlockGlobal s4WitState p4Pos ⟨"minecraft:dirt"⟩ none
      none).state.remote.placeResult = s4WitState.remote.placeResult) ∧
    (((placeSingleBlockGlobal s4WitState p4Pos ⟨"minecraft:dirt"⟩ none
      none).state.buffer.map (fun e => e.1)).Nodup) :=
  decayMaskCorrectness s4WitState p4Pos q4Pos ⟨"minecraft:dirt"⟩ none none
    wsStone rfl (by decide) (by decide) rfl (fun r c d' => rfl) (by decide)

/-- C5: a read consults its sources in exactly the priority order Lookup
Cache (only if caching is enabled) → Write Buffer (only if buffering is
enabled) → cached World Snapshot (only if one is cached, the position's XZ
lies in its rectangle, and the Decay Mask there is false — the fifth
conjunct characterizes the snapshot guard) → single-voxel network fetch:
each source answers exactly when it is applicable and no higher-priority
source is, the returned value is the consulted source's value, and when
caching is enabled a value obtained from a cache hit, a snapshot hit or the
network is stored in the Lookup Cache afterwards (for any positive cache
limit); with caching disabled the read leaves the state unchanged. -/
theorem readPriorityOrder (S : EditorState) (pos : Pos) :
    ((getBlockGlobal S pos).source = ReadSource.cacheHit ↔
      S.caching = true ∧ (cacheFind S.cache pos).isSome = true) ∧
    ((getBlockGlobal S pos).source = ReadSource.bufferHit ↔
      ¬(S.caching = true ∧ (cacheFind S.cache pos).isSome = true) ∧
      S.buffering = true ∧ (bufferFind S.buffer pos).isSome = true) ∧
    ((getBlockGlobal S pos).source = ReadSource.sliceHit ↔
      ¬(S.caching = true ∧ (cacheFind S.cache pos).isSome = true) ∧
      ¬(S.buffering = true ∧ (bufferFind S.buffer pos).isSome = true) ∧
      (sliceUsable S pos).isSome = true) ∧
    ((getBlockGlobal S pos).source = ReadSource.network ↔
      ¬(S.caching = true ∧ (cacheFind S.cache pos).isSome = true) ∧
      ¬(S.buffering = true ∧ (bufferFind S.buffer pos).isSome = true) ∧
      ¬((sliceUsable S pos).isSome = true)) ∧
    ((sliceUsable S pos).isSome = true ↔
      ∃ ws, S.worldSlice = some ws ∧
        ws.rect.containsB (dropY pos) = true ∧ S.decay pos = false) ∧
    ((getBlockGlobal S pos).source = ReadSource.cacheHit →
      cacheFind S.cache pos = some (getBlockGlobal S pos).block) ∧
    ((getBlockGlobal S pos).source = ReadSource.bufferHit →
      bufferFind S.buffer pos = some (getBlockGlobal S pos).block) ∧
    ((getBlockGlobal S pos).source = ReadSource.sliceHit →
      sliceUsable S pos = some (getBlockGlobal S pos).block) ∧
    ((getBlockGlobal S pos).source = ReadSource.network →
      (getBlockGlobal S pos).block = S.remote.blocks pos) ∧
    (S.caching = true → (getBlockGlobal S pos).source ≠ ReadSource.bufferHit →
      1 ≤ S.cacheLimit →
      cacheFind (getBlockGlobal S pos).state.cache pos
        = some (getBlockGlobal S pos).block) ∧
    (S.caching = false → (getBlockGlobal S pos).state = S) := by
  have hslice : (sliceUsable S pos).isSome = true ↔
      ∃ ws, S.worldSlice = some ws ∧
        ws.rect.containsB (dropY pos) = true ∧ S.decay pos = false := by
    unfold sliceUsable
    rcases hws : S.worldSlice with _ | ws
    · simp
    · by_cases hcon : ws.rect.containsB (dropY pos) && !(S.decay pos) <;>
        simp_all
  by_cases hc : S.caching
  · rcases hcf : cacheFind S.cache pos with _ | b
    · have hm : (if S.caching then cacheFind S.cache pos else none) = none := by
        simp [hc, hcf]
      by_cases hb : S.buffering
      · rcases hbf : bufferFind S.buffer pos with _ | b
        · have hm2 : (if S.buffering then bufferFind S.buffer pos else none)
              = none := by simp [hb, hbf]
          have heq := getBlockGlobal_eq_fallback S pos hm hm2
          rcases hsu : sliceUsable S pos with _ | b <;>
            rw [hsu] at heq <;>
            refine ⟨?_, ?_, ?_, ?_, ?_, ?_, ?_, ?_, ?_, ?_, ?_⟩ <;>
            simp_all [cacheFind_cachePut_self]
        · have heq := getBlockGlobal_eq_bufferHit S pos b hm hb hbf
          refine ⟨?_, ?_, ?_, ?_, ?_, ?_, ?_, ?_, ?_, ?_, ?_⟩ <;>
            simp_all
      · have hm2 : (if S.buffering then bufferFind S.buffer pos else none)
            = none := by simp [hb]
        have heq := getBlockGlobal_eq_fallback S pos hm hm2
        rcases hsu : sliceUsable S pos with _ | b <;>
          rw [hsu] at heq <;>
          refine ⟨?_, ?_, ?_, ?_, ?_, ?_, ?_, ?_, ?_, ?_, ?_⟩ <;>
          simp_all [cacheFind_cachePut_self]
    · have heq := getBlockGlobal_eq_cacheHit S pos b hc hcf
      refine ⟨?_, ?_, ?_, ?_, ?_, ?_, ?_, ?_, ?_, ?_, ?_⟩ <;>
        simp_all [cacheFind_cachePromote_self]
  · have hm : (if S.caching then cacheFind S.cache pos else none) = none := by
      simp [hc]
    by_cases hb : S.buffering
    · rcases hbf : bufferFind S.buffer pos with _ | b
      · have hm2 : (if S.buffering then bufferFind S.buffer pos else none)
            = none := by simp [hb, hbf]
        have heq := getBlockGlobal_eq_fallback S pos hm hm2
        rcases hsu : sliceUsable S pos with _ | b <;>
          rw [hsu] at heq <;>
          refine ⟨?_, ?_, ?_, ?_, ?_, ?_, ?_, ?_, ?_, ?_, ?_⟩ <;>
          simp_all
      · have heq := getBlockGlobal_eq_bufferHit S pos b hm hb hbf
        refine ⟨?_, ?_, ?_, ?_, ?_, ?_, ?_, ?_, ?_, ?_, ?_⟩ <;>
          simp_all
    · have hm2 : (if S.buffering then bufferFind S.buffer pos else none)
          = none := by simp [hb]
      have heq := getBlockGlobal_eq_fallback S pos hm hm2
      rcases hsu : sliceUsable S pos with _ | b <;>
        rw [hsu] at heq <;>
        refine ⟨?_, ?_, ?_, ?_, ?_, ?_, ?_, ?_, ?_, ?_, ?_⟩ <;>
        simp_all

/-- C9 witness: on a slice whose section collection is empty, the resolution
at coordinate (3, 70, 5) reports no data and reads as void air. -/
theorem omittedSection_reads_void_air_check :
    getBlockCompoundAt wsl0 3 70 5 = none ∧
    getBlockAt wsl0 3 70 5 = "minecraft:void_air" ∧
    (∀ (cx cz : Int) (c : RawChunk) (cs : CachedSection),
      cs ∈ buildChunkSections cx cz c →
      ∃ raw ∈ c.sections, raw.blockStates.isSome = true ∧ cs.y = raw.y) :=
  omittedSection_reads_void_air wsl0 3 70 5 rfl

end GDPC
